import Mathlib

/-!
# Expo push adapter: payload normalisation, recipient resolution, batching

A shallow embedding of `server/push/expo/payload.go` and
`server/push/expo/push_expo.go`.

* Go strings are byte sequences (`GoString`); `len` is the byte length,
  `[]rune(s)` decodes UTF-8 the way the Go runtime does (an invalid byte
  becomes `U+FFFD` and consumes one byte) and `string(runes)` encodes.
* Go maps with string keys are association lists with unique keys; the
  attribute maps that `PrepareNotifications` shares between messages live in
  an explicit heap, so that aliasing and mutation are visible.
* Code outside the two source files (plain-text extraction, timestamp
  formatting, access-mode rendering, the device registry, the gateway client,
  JSON parsing of the configuration) is a parameter.
* `sendNotifications` returns the batches it hands to the gateway; a traced
  copy of its loop also records every response it inspects.
* The package variable `handler` is an explicit state that `Init` transforms;
  the worker goroutine and the traffic on the channels are not modelled.
-/

namespace Expo

/-! ## Go strings and runes -/

/-- A Go string: an immutable sequence of bytes. -/
abbrev GoString := List Nat

/-- A Go rune, as a code point (only non-negative ones arise from decoding). -/
abbrev Rune := Nat

/-- The replacement character `utf8.RuneError`. -/
def RuneError : Nat := 0xFFFD

/-- Continuation-byte test (`locb <= b && b <= hicb`). -/
def isCont (b : Nat) : Bool := 0x80 ≤ b && b ≤ 0xBF

/-- One step of `utf8.DecodeRuneInString`: the rune at the front of a non-empty
string and its width in bytes.  Ill-formed input gives `(RuneError, 1)`. -/
def decodeRune : GoString → Nat × Nat
  | [] => (RuneError, 0)
  | b0 :: rest =>
    if b0 < 0x80 then (b0, 1)
    else if 0xC2 ≤ b0 ∧ b0 ≤ 0xDF then
      match rest with
      | b1 :: _ =>
        if isCont b1 then ((b0 % 32) * 64 + b1 % 64, 2) else (RuneError, 1)
      | _ => (RuneError, 1)
    else if 0xE0 ≤ b0 ∧ b0 ≤ 0xEF then
      match rest with
      | b1 :: b2 :: _ =>
        let lo := if b0 = 0xE0 then 0xA0 else 0x80
        let hi := if b0 = 0xED then 0x9F else 0xBF
        if b1 < lo ∨ hi < b1 then (RuneError, 1)
        else if !isCont b2 then (RuneError, 1)
        else ((b0 % 16) * 4096 + (b1 % 64) * 64 + b2 % 64, 3)
      | _ => (RuneError, 1)
    else if 0xF0 ≤ b0 ∧ b0 ≤ 0xF4 then
      match rest with
      | b1 :: b2 :: b3 :: _ =>
        let lo := if b0 = 0xF0 then 0x90 else 0x80
        let hi := if b0 = 0xF4 then 0x8F else 0xBF
        if b1 < lo ∨ hi < b1 then (RuneError, 1)
        else if !isCont b2 then (RuneError, 1)
        else if !isCont b3 then (RuneError, 1)
        else ((b0 % 8) * 262144 + (b1 % 64) * 4096 + (b2 % 64) * 64 + b3 % 64, 4)
      | _ => (RuneError, 1)
    else (RuneError, 1)

/-- The loop of `[]rune(s)`: decode a rune, advance by its width, until the
string is exhausted.  `fuel` bounds the number of iterations. -/
def toRunesFuel : Nat → GoString → List Rune
  | 0, _ => []
  | _, [] => []
  | fuel + 1, b0 :: rest =>
    (decodeRune (b0 :: rest)).1 ::
      toRunesFuel fuel (rest.drop ((decodeRune (b0 :: rest)).2 - 1))

/-- The conversion `[]rune(s)`.  Every iteration consumes at least one byte, so
the byte length is enough fuel (`toRunes_cons`). -/
def toRunes (s : GoString) : List Rune := toRunesFuel s.length s

/-- One step of `utf8.EncodeRune` / `utf8.AppendRune`. -/
def encodeRune (r : Nat) : GoString :=
  if r ≤ 0x7F then [r]
  else if r ≤ 0x7FF then [0xC0 + r / 64, 0x80 + r % 64]
  else if r > 0x10FFFF ∨ (0xD800 ≤ r ∧ r ≤ 0xDFFF) then [0xEF, 0xBF, 0xBD]
  else if r ≤ 0xFFFF then [0xE0 + r / 4096, 0x80 + (r / 64) % 64, 0x80 + r % 64]
  else [0xF0 + r / 262144, 0x80 + (r / 4096) % 64, 0x80 + (r / 64) % 64, 0x80 + r % 64]

/-- The conversion `string(runes)`. -/
def fromRunes (rs : List Rune) : GoString := rs.flatMap encodeRune

/-- A Go string literal: the UTF-8 encoding of the source text. -/
def goStr (s : String) : GoString := fromRunes (s.data.map Char.toNat)

/-- The built-in `len(s)` of a string: its number of bytes. -/
def len (s : GoString) : Nat := s.length

/-- A Unicode scalar value: what decoding well-formed UTF-8 yields. -/
def validRune (r : Nat) : Prop := r < 0xD800 ∨ (0xE000 ≤ r ∧ r ≤ 0x10FFFF)

/-! ## Constants of `push_expo.go` -/

/-- The number of push messages sent in one batch. -/
def pushBatchSize : Nat := 100

/-- Maximum length of a text message in runes. -/
def maxMessageLength : Nat := 80

/-! ## Go values used by the adapter -/

/-- A Go `error` value; a nil error is `none : Option GoError`. -/
structure GoError where
  msg : String
deriving DecidableEq, Repr

/-- A Go `map[string]string`: an association list in which every key occurs
once.  The order of the list is the (unspecified) iteration order. -/
abbrev StrMap := List (String × GoString)

/-- The comma-ok lookup `v, ok := m[k]`. -/
def StrMap.get : StrMap → String → Option GoString
  | [], _ => none
  | (k1, v1) :: rest, k => if k1 = k then some v1 else StrMap.get rest k

/-- The expression `m[k]`: the zero value `""` for a missing key. -/
def StrMap.index (m : StrMap) (k : String) : GoString := (m.get k).getD []

/-- The assignment `m[k] = v`. -/
def StrMap.set : StrMap → String → GoString → StrMap
  | [], k, v => [(k, v)]
  | (k1, v1) :: rest, k, v =>
    if k1 = k then (k, v) :: rest else (k1, v1) :: StrMap.set rest k v

/-- The keys of a map, in iteration order. -/
def StrMap.keys (m : StrMap) : List String := m.map Prod.fst

/-- `strconv.Itoa` on a non-negative number: the digit loop of `formatBits`,
least significant digit first, prepending to the buffer. -/
def natDigits : Nat → Nat → GoString → GoString
  | 0, _, acc => acc
  | fuel + 1, n, acc =>
    if n < 10 then (48 + n) :: acc
    else natDigits fuel (n / 10) ((48 + n % 10) :: acc)

/-- `strconv.Itoa`: base-10 rendering, with a leading `-` for negatives. -/
def Itoa (i : Int) : GoString :=
  if i < 0 then 0x2D :: natDigits (i.natAbs + 1) i.natAbs []
  else natDigits (i.natAbs + 1) i.natAbs []

/-- The type `push.Payload` (declared in the `push` package).  `C` is the type
of rich content (`interface{}`), `T` is `time.Time`, `M` is `types.AccessMode`. -/
structure Payload (C T M : Type) where
  What : GoString
  Silent : Bool
  Topic : GoString
  From : GoString
  Timestamp : T
  SeqId : Int
  ContentType : GoString
  Content : C
  ModeWant : M
  ModeGiven : M

/-- The type `push.Recipient`. -/
structure Recipient where
  Delivered : Int
  Devices : List GoString
  Unread : Int
deriving DecidableEq, Repr

/-- The type `types.DeviceDef`, with the fields the adapter reads. -/
structure DeviceDef where
  DeviceId : GoString
  Platform : GoString
deriving DecidableEq, Repr

/-- The type `push.Receipt`; `To` is a `map[t.Uid]push.Recipient`. -/
structure Receipt (C T M : Type) where
  To : List (Nat × Recipient)
  Channel : GoString
  Payload : Payload C T M

/-- What the adapter calls outside its two source files: the two kind constants
of the `push` package, `drafty.ToPlainText`, `Time.Format(time.RFC3339Nano)`,
`AccessMode.String` and `store.Devices.GetAll`. -/
structure Deps (C T M : Type) where
  ActMsg : GoString
  ActSub : GoString
  ToPlainText : C → GoString × Option GoError
  FormatRFC3339Nano : T → GoString
  ModeString : M → GoString
  GetAll : List Nat → List (Nat × List DeviceDef) × Int × Option GoError

/-! ## payload.go -/

/-- The truncation block of `payloadToData` (payload.go lines 46-53): "Trim long
strings to 80 runes.  Check byte length first and don't waste time converting
short strings." -/
def trimData (data : StrMap) : StrMap :=
  if len (data.index "content") > maxMessageLength then
    let runes := toRunes (data.index "content")
    if runes.length > maxMessageLength then
      data.set "content" (fromRunes (runes.take maxMessageLength) ++ goStr "…")
    else data
  else data

/-- The function `payloadToData`.  The result is the Go pair `(map, error)`; a
nil map is `none`. -/
def payloadToData {C T M : Type} (deps : Deps C T M) (pl : Option (Payload C T M)) :
    Option StrMap × Option GoError :=
  match pl with
  | none => (none, some ⟨"empty push payload"⟩)
  | some pl =>
    let data : StrMap := []
    let data := data.set "what" pl.What
    let data := if pl.Silent then data.set "silent" (goStr "true") else data
    let data := data.set "topic" pl.Topic
    let data := data.set "ts" (deps.FormatRFC3339Nano pl.Timestamp)
    let data := data.set "xfrom" pl.From
    if pl.What = deps.ActMsg then
      let data := data.set "seq" (Itoa pl.SeqId)
      let data := data.set "mime" pl.ContentType
      let data := data.set "content" (deps.ToPlainText pl.Content).1
      match (deps.ToPlainText pl.Content).2 with
      | some err => (none, some err)
      | none =>
        let data := trimData data
        (some data, none)
    else if pl.What = deps.ActSub then
      let data := data.set "modeWant" (deps.ModeString pl.ModeWant)
      let data := data.set "modeGiven" (deps.ModeString pl.ModeGiven)
      (some data, none)
    else (none, some ⟨"unknown push type"⟩)

/-- The attributes common to both kinds (payload.go lines 28-37), as a value:
a view of the first part of `payloadToData` used to state lemmas. -/
def commonData {C T M : Type} (deps : Deps C T M) (pl : Payload C T M) : StrMap :=
  let data : StrMap := []
  let data := data.set "what" pl.What
  let data := if pl.Silent then data.set "silent" (goStr "true") else data
  let data := data.set "topic" pl.Topic
  let data := data.set "ts" (deps.FormatRFC3339Nano pl.Timestamp)
  data.set "xfrom" pl.From

/-- What the truncation block does to the text stored under `content`: a view
of `trimData` on the string alone (`index_trimData_content`). -/
def trimContent (content : GoString) : GoString :=
  if len content > maxMessageLength then
    let runes := toRunes content
    if runes.length > maxMessageLength then
      fromRunes (runes.take maxMessageLength) ++ goStr "…"
    else content
  else content

/-- A reference to a Go map: maps are reference values, so two variables may
name the same map. -/
abbrev MapRef := Nat

/-- The maps allocated so far, by reference. -/
abbrev Heap := List StrMap

/-- The map a reference names. -/
def Heap.deref (h : Heap) (r : MapRef) : StrMap := h.getD r []

/-- The allocation `make(map[string]string)` (here with initial contents). -/
def Heap.alloc (h : Heap) (m : StrMap) : Heap × MapRef := (h ++ [m], h.length)

/-- The assignment `r[k] = v` through a reference. -/
def Heap.store (h : Heap) (r : MapRef) (k : String) (v : GoString) : Heap :=
  h.set r ((h.deref r).set k v)

/-- The type `expo.PushMessage`, with the fields the adapter sets; `Data` is a map
reference and an unset `Badge` is 0. -/
structure PushMessage where
  To : List GoString
  Data : MapRef
  Title : GoString
  Body : GoString
  Sound : GoString
  Priority : GoString
  Badge : Int
deriving DecidableEq, Repr

/-- The constant `expo.HighPriority` of the gateway SDK. -/
def HighPriority : GoString := goStr "high"

/-- The type `MessageData`: user ID and device token added to a push message. -/
structure MessageData where
  Uid : Nat
  DeviceId : GoString
  Message : PushMessage
deriving DecidableEq, Repr

/-- The function `clonePayload`: a fresh map, filled key by key from `src`. -/
def clonePayload (h : Heap) (src : MapRef) : Heap × MapRef :=
  let (h1, dst) := h.alloc []
  ((h.deref src).foldl (fun hp kv => hp.store dst kv.1 kv.2) h1, dst)

/-- The zero-valued lookup `rcpt.To[uid]`. -/
def lookupTo : List (Nat × Recipient) → Nat → Recipient
  | [], _ => ⟨0, [], 0⟩
  | (u, r) :: rest, uid => if u = uid then r else lookupTo rest uid

/-- The assignment `skipDevices[deviceID] = struct{}{}` on a set of strings. -/
def skipInsert (skip : List GoString) (deviceID : GoString) : List GoString :=
  if deviceID ∈ skip then skip else skip ++ [deviceID]

/-- The loop over `rcpt.To` (payload.go lines 91-98): the UIDs to query, and the
devices which were online in the topic when the message was sent. -/
def collectTo (rcptTo : List (Nat × Recipient)) : List Nat × List GoString :=
  rcptTo.foldl (fun st e => (st.1 ++ [e.1], e.2.Devices.foldl skipInsert st.2)) ([], [])

/-- The body of the loop over one user's device list (payload.go lines 117-133). -/
def deviceStep (rcptTo : List (Nat × Recipient)) (skipDevices : List GoString) (uid : Nat)
    (userData : MapRef) (messages : List MessageData) (d : DeviceDef) : List MessageData :=
  if d.DeviceId ∉ skipDevices ∧ d.DeviceId ≠ [] then
    let msg : PushMessage :=
      { To := [d.DeviceId]
        Data := userData
        Title := goStr "Сообщения"
        Body := goStr "Пользователь отправил вам новое сообщение"
        Sound := goStr "default"
        Priority := HighPriority
        Badge := 0 }
    let msg :=
      if d.Platform = goStr "ios" then { msg with Badge := (lookupTo rcptTo uid).Unread }
      else msg
    messages ++ [{ Uid := uid, DeviceId := d.DeviceId, Message := msg }]
  else messages

/-- The body of the loop over `devices` (payload.go lines 110-134). -/
def userStep (rcptTo : List (Nat × Recipient)) (skipDevices : List GoString) (data : MapRef)
    (st : Heap × List MessageData) (e : Nat × List DeviceDef) : Heap × List MessageData :=
  let hu : Heap × MapRef :=
    if (lookupTo rcptTo e.1).Delivered > 0 then
      let c := clonePayload st.1 data
      (c.1.store c.2 "silent" (goStr "true"), c.2)
    else (st.1, data)
  (hu.1, e.2.foldl (deviceStep rcptTo skipDevices e.1 hu.2) st.2)

/-- The function `PrepareNotifications`.  Returns the messages together with the
heap holding the attribute maps their `Data` fields refer to. -/
def PrepareNotifications {C T M : Type} (deps : Deps C T M) (rcpt : Receipt C T M) :
    List MessageData × Heap :=
  match payloadToData deps (some rcpt.Payload) with
  | (_, some _) => ([], [])
  | (dataMap, none) =>
    let (h0, data) := Heap.alloc [] (dataMap.getD [])
    let res : Option (List (Nat × List DeviceDef) × Int × List GoString) :=
      if rcpt.To.length > 0 then
        let (uids, skipDevices) := collectTo rcpt.To
        match deps.GetAll uids with
        | (_, _, some _) => none
        | (devices, count, none) => some (devices, count, skipDevices)
      else some ([], 0, [])
    match res with
    | none => ([], h0)
    | some (devices, count, skipDevices) =>
      if count = 0 ∧ rcpt.Channel = [] then ([], h0)
      else
        let out := devices.foldl (userStep rcpt.To skipDevices data) (h0, [])
        (out.2, out.1)

/-- The attribute map a prepared message carries, read through its reference. -/
def MessageData.data (h : Heap) (m : MessageData) : StrMap := h.deref m.Message.Data

/-! ## push_expo.go -/

/-- The type `expo.PushResponse`, with the field the adapter reads. -/
structure PushResponse where
  Status : GoString
  Details : StrMap
deriving DecidableEq, Repr

/-- The gateway client: `PublishMultiple` (its answer may depend on how many
calls came before), `PushResponse.ValidateResponse` and the SDK constant
`ErrorMessageRateExceeded`. -/
structure Gateway where
  PublishMultiple : Nat → List PushMessage → List PushResponse × Option GoError
  ValidateResponse : PushResponse → Option GoError
  ErrorMessageRateExceeded : GoString

/-- The loop over the responses of one batch (push_expo.go lines 102-109):
`true` when it leaves `sendNotifications` through `return`. -/
def scanResponses (gw : Gateway) : List PushResponse → Bool
  | [] => false
  | r :: rest =>
    match gw.ValidateResponse r with
    | some _ =>
      if r.Details.index "error" = gw.ErrorMessageRateExceeded then true
      else scanResponses gw rest
    | none => scanResponses gw rest

/-- The batch loop of `sendNotifications` (push_expo.go lines 87-110), from
index `i` on; `calls` are the batches handed to `PublishMultiple` so far.
`none` when `fuel` iterations were not enough. -/
def sendLoop (gw : Gateway) (messages : List MessageData) :
    Nat → Nat → List (List PushMessage) → Option (List (List PushMessage))
  | 0, i, calls => if i < messages.length then none else some calls
  | fuel + 1, i, calls =>
    if i < messages.length then
      let upper := if i + pushBatchSize > messages.length then messages.length
        else i + pushBatchSize
      let batch := ((messages.drop i).take (upper - i)).map MessageData.Message
      let (resp, err) := gw.PublishMultiple calls.length batch
      let calls := calls ++ [batch]
      match err with
      | some _ => some calls
      | none =>
        if scanResponses gw resp then some calls
        else sendLoop gw messages fuel (i + pushBatchSize) calls
    else some calls

/-- The part of `sendNotifications` after preparation (lines 82-110): the
batches handed to the gateway, in call order. -/
def sendMessages (gw : Gateway) (messages : List MessageData) :
    Option (List (List PushMessage)) :=
  if messages.length = 0 then some []
  else sendLoop gw messages messages.length 0 []

/-- The function `sendNotifications`. -/
def sendNotifications {C T M : Type} (deps : Deps C T M) (gw : Gateway)
    (rcpt : Receipt C T M) : Option (List (List PushMessage)) :=
  sendMessages gw (PrepareNotifications deps rcpt).1

/-- One observable step of `sendNotifications` at the gateway client: a
`PublishMultiple` call with its batch, or the inspection of one response
(`ValidateResponse`, then the look at its `Details`). -/
inductive GatewayEvent where
  | publish (batch : List PushMessage)
  | validate (r : PushResponse)
deriving DecidableEq, Repr

/-- The loop over the responses of one batch (push_expo.go lines 102-109) with
the responses it inspects, in order; the flag is that of `scanResponses`. -/
def scanTrace (gw : Gateway) : List PushResponse → List GatewayEvent × Bool
  | [] => ([], false)
  | r :: rest =>
    match gw.ValidateResponse r with
    | some _ =>
      if r.Details.index "error" = gw.ErrorMessageRateExceeded then
        ([GatewayEvent.validate r], true)
      else (GatewayEvent.validate r :: (scanTrace gw rest).1, (scanTrace gw rest).2)
    | none => (GatewayEvent.validate r :: (scanTrace gw rest).1, (scanTrace gw rest).2)

/-- The batch loop of `sendNotifications` (push_expo.go lines 87-110) as
`sendLoop`, recording next to the batches every gateway event in order. -/
def sendLoopTrace (gw : Gateway) (messages : List MessageData) :
    Nat → Nat → List (List PushMessage) × List GatewayEvent →
      Option (List (List PushMessage) × List GatewayEvent)
  | 0, i, st => if i < messages.length then none else some st
  | fuel + 1, i, st =>
    if i < messages.length then
      let upper := if i + pushBatchSize > messages.length then messages.length
        else i + pushBatchSize
      let batch := ((messages.drop i).take (upper - i)).map MessageData.Message
      let (resp, err) := gw.PublishMultiple st.1.length batch
      let calls := st.1 ++ [batch]
      let events := st.2 ++ [GatewayEvent.publish batch]
      match err with
      | some _ => some (calls, events)
      | none =>
        if (scanTrace gw resp).2 then some (calls, events ++ (scanTrace gw resp).1)
        else sendLoopTrace gw messages fuel (i + pushBatchSize)
          (calls, events ++ (scanTrace gw resp).1)
    else some st

/-- The part of `sendNotifications` after preparation, with its gateway events. -/
def sendMessagesTrace (gw : Gateway) (messages : List MessageData) :
    Option (List (List PushMessage) × List GatewayEvent) :=
  if messages.length = 0 then some ([], [])
  else sendLoopTrace gw messages messages.length 0 ([], [])

/-- Size of the input channel buffer. -/
def bufferSize : Nat := 1024

/-- A buffered channel value as the handler sees it: `make(chan T, n)` gives a
non-nil channel of capacity `n`.  What travels through it is not modelled. -/
structure Chan where
  cap : Nat
deriving DecidableEq, Repr

/-- The handle `*expoSdk.PushClient` made by `NewPushClient(nil)`. -/
structure PushClient where
deriving DecidableEq, Repr

/-- The type `Handler`; a nil channel or client is `none`. -/
structure Handler where
  input : Option Chan
  channel : Option Chan
  stop : Option Chan
  client : Option PushClient
deriving DecidableEq, Repr

/-- The package variable `var handler Handler` before any `Init`: the zero
value, with every field nil. -/
def handler : Handler := ⟨none, none, none, none⟩

/-- The type `configType`. -/
structure configType where
  Enabled : Bool
  Credentials : GoString
  CredentialsFile : GoString
  TimeToLive : Nat
deriving DecidableEq, Repr

/-- The method `Handler.Init` on the explicit state of the package variable;
`Unmarshal` stands for `json.Unmarshal` into a `configType`.  The worker
goroutine that Init starts is not part of the state. -/
def Init (Unmarshal : GoString → configType × Option GoError) (h : Handler)
    (jsonconf : GoString) : Handler × Option GoError :=
  match (Unmarshal jsonconf).2 with
  | some err => (h, some ⟨"failed to parse config: " ++ err.msg⟩)
  | none =>
    if !(Unmarshal jsonconf).1.Enabled then (h, none)
    else
      let h := { h with client := some ⟨⟩ }
      let h := { h with input := some ⟨bufferSize⟩ }
      let h := { h with channel := some ⟨bufferSize⟩ }
      let h := { h with stop := some ⟨1⟩ }
      (h, none)

/-- The method `Handler.IsReady`: `handler.input != nil`. -/
def IsReady (h : Handler) : Bool := h.input != none

/-! ## Views used to state the claims on PrepareNotifications -/

/-- The skip-set in the spec's words: every device identity listed as
delivered live under any user of the receipt's `To` map. -/
def skipSet (rcptTo : List (Nat × Recipient)) : List GoString :=
  rcptTo.flatMap (fun e => e.2.Devices)

/-- The test of payload.go line 119 on a device, against a given skip-set. -/
def eligible (skipDevices : List GoString) (d : DeviceDef) : Bool :=
  decide (d.DeviceId ∉ skipDevices ∧ d.DeviceId ≠ [])

/-- The `MessageData` that payload.go lines 120-131 build for one device. -/
def mkMessage (rcptTo : List (Nat × Recipient)) (uid : Nat) (userData : MapRef)
    (d : DeviceDef) : MessageData :=
  { Uid := uid
    DeviceId := d.DeviceId
    Message :=
      { To := [d.DeviceId]
        Data := userData
        Title := goStr "Сообщения"
        Body := goStr "Пользователь отправил вам новое сообщение"
        Sound := goStr "default"
        Priority := HighPriority
        Badge := if d.Platform = goStr "ios" then (lookupTo rcptTo uid).Unread else 0 } }

/-- A message with its map reference blanked: everything but `Data`. -/
def MessageData.strip (m : MessageData) : MessageData :=
  { m with Message := { m.Message with Data := 0 } }

/-- The map `clonePayload` builds from the contents of its source. -/
def cloneMap (src : StrMap) : StrMap :=
  src.foldl (fun m kv => m.set kv.1 kv.2) []

/-- What the user loop keeps true of every message: its reference is
allocated; for a silenced user it names a private clone with `silent` forced,
for any other user it is the shared reference. -/
def goodMessage (rcptTo : List (Nat × Recipient)) (data : MapRef) (shared : StrMap)
    (h : Heap) (m : MessageData) : Prop :=
  m.Message.Data < h.length ∧
    (if (lookupTo rcptTo m.Uid).Delivered > 0 then
      h.deref m.Message.Data = (cloneMap shared).set "silent" (goStr "true")
    else m.Message.Data = data)

/-- The `j`-th whole batch of a message list: the `pushBatchSize` messages from
index `pushBatchSize * j` on (fewer at the end of the list). -/
def batchAt (messages : List MessageData) (j : Nat) : List PushMessage :=
  ((messages.map MessageData.Message).drop (pushBatchSize * j)).take pushBatchSize

/-- The truncation in the spec's words, without the byte-length pre-check:
always count the runes, cut when there are more than `maxMessageLength`. -/
def trimContentNaive (content : GoString) : GoString :=
  if (toRunes content).length > maxMessageLength then
    fromRunes ((toRunes content).take maxMessageLength) ++ goStr "…"
  else content

/-- The naive truncation as an update of the attribute map. -/
def trimDataNaive (data : StrMap) : StrMap :=
  if (toRunes (data.index "content")).length > maxMessageLength then
    data.set "content"
      (fromRunes ((toRunes (data.index "content")).take maxMessageLength) ++ goStr "…")
  else data

/-- Reading a run of decimal digits, most significant first, onto `acc`. -/
def parseDigits : Nat → GoString → Option Nat
  | acc, [] => some acc
  | acc, c :: rest =>
    if 48 ≤ c ∧ c ≤ 57 then parseDigits (acc * 10 + (c - 48)) rest else none

/-- Parsing a string as a decimal integer: an optional `-`, then one or more
digits. -/
def parseDecimal : GoString → Option Int
  | [] => none
  | c :: rest =>
    if c = 0x2D then
      match rest with
      | [] => none
      | _ :: _ => Option.map (fun n : Nat => -Int.ofNat n) (parseDigits 0 rest)
    else Option.map (fun n : Nat => Int.ofNat n) (parseDigits 0 (c :: rest))

/-- Whether the `PublishMultiple` call for batch `j` ends the dispatch: a
transport error, or a rate-limit response among its answers. -/
def aborts (gw : Gateway) (messages : List MessageData) (j : Nat) : Bool :=
  (gw.PublishMultiple j (batchAt messages j)).2.isSome ||
    scanResponses gw (gw.PublishMultiple j (batchAt messages j)).1

/-- The gateway events of the call for batch `j`: the call, then the
inspected responses unless the call failed as a whole. -/
def callEvents (gw : Gateway) (messages : List MessageData) (j : Nat) : List GatewayEvent :=
  GatewayEvent.publish (batchAt messages j) ::
    (if (gw.PublishMultiple j (batchAt messages j)).2.isSome then []
     else (scanTrace gw (gw.PublishMultiple j (batchAt messages j)).1).1)

/-- The batches of the `PublishMultiple` calls among some gateway events. -/
def publishes : List GatewayEvent → List (List PushMessage)
  | [] => []
  | GatewayEvent.publish b :: rest => b :: publishes rest
  | GatewayEvent.validate _ :: rest => publishes rest

/-- A response that fails validation with the "rate limit exceeded" detail
(the test of push_expo.go lines 103-104). -/
def rateLimited (gw : Gateway) (r : PushResponse) : Bool :=
  (gw.ValidateResponse r).isSome &&
    decide (r.Details.index "error" = gw.ErrorMessageRateExceeded)

/-! ## Sample inputs -/

/-- A sample environment: kinds `msg` and `sub`, content that is already plain
text, a registry that knows two devices of user 2. -/
def sampleDeps : Deps GoString Nat Nat :=
  { ActMsg := goStr "msg"
    ActSub := goStr "sub"
    ToPlainText := fun c => (c, none)
    FormatRFC3339Nano := fun _ => goStr "2019-03-01T10:00:00Z"
    ModeString := fun _ => goStr "JRWPS"
    GetAll := fun _ =>
      ([(2, [⟨goStr "ios-1", goStr "ios"⟩, ⟨goStr "ios-2", goStr "ios"⟩])], 2, none) }

/-- A sample message payload. -/
def sampleMsg : Payload GoString Nat Nat :=
  { What := goStr "msg", Silent := false, Topic := goStr "grp1", From := goStr "usr1",
    Timestamp := 0, SeqId := 12, ContentType := goStr "text/plain",
    Content := goStr "hello", ModeWant := 0, ModeGiven := 0 }

/-- A sample subscription-change payload. -/
def sampleSub : Payload GoString Nat Nat :=
  { sampleMsg with What := goStr "sub", Silent := true }

/-- A message payload whose plain text is 81 ASCII letters. -/
def longMsg : Payload GoString Nat Nat :=
  { sampleMsg with Content := List.replicate 81 97 }

/-- The receipt of the spec's scenario: two users in `To`, user 1 already
delivered live on `ios-1`; the registry (`sampleDeps`) knows the devices
`ios-1` and `ios-2` of the target user 2. -/
def sampleRcpt : Receipt GoString Nat Nat :=
  { To := [(1, ⟨1, [goStr "ios-1"], 0⟩), (2, ⟨0, [], 3⟩)]
    Channel := []
    Payload := sampleMsg }

/-- The message the scenario expects: one target, `ios-2` of user 2. -/
def sampleTarget : MessageData :=
  mkMessage sampleRcpt.To 2 0 ⟨goStr "ios-2", goStr "ios"⟩

/-- A registry that knows one device of user 1 and one of user 2. -/
def twoUserDeps : Deps GoString Nat Nat :=
  { sampleDeps with
    GetAll := fun _ =>
      ([(1, [⟨goStr "and-1", goStr "android"⟩]), (2, [⟨goStr "ios-2", goStr "ios"⟩])], 2, none) }

/-- A receipt in which user 1 has received the data interactively and user 2
has not; neither device was online. -/
def twoUserRcpt : Receipt GoString Nat Nat :=
  { To := [(1, ⟨1, [], 0⟩), (2, ⟨0, [], 3⟩)]
    Channel := []
    Payload := sampleMsg }

/-- The message `twoUserRcpt` yields for user 2, after the one for user 1. -/
def twoUserTarget : MessageData :=
  mkMessage twoUserRcpt.To 2 0 ⟨goStr "ios-2", goStr "ios"⟩

/-- A gateway that accepts every batch and reports no failures. -/
def okGateway : Gateway :=
  { PublishMultiple := fun _ _ => ([], none)
    ValidateResponse := fun _ => none
    ErrorMessageRateExceeded := goStr "MessageRateExceeded" }

/-- A list of 250 prepared messages. -/
def manyMessages : List MessageData := List.replicate 250 sampleTarget

/-- A gateway whose second call fails as a whole (while still handing back a
rate-limit response) and whose other calls succeed with no responses. -/
def failGateway : Gateway :=
  { PublishMultiple := fun k _ =>
      if k = 1 then
        ([⟨goStr "error", [("error", goStr "MessageRateExceeded")]⟩], some ⟨"EOF"⟩)
      else ([], none)
    ValidateResponse := fun r => if r.Status = goStr "ok" then none else some ⟨"invalid"⟩
    ErrorMessageRateExceeded := goStr "MessageRateExceeded" }

/-- A response that passed. -/
def okResponse : PushResponse := ⟨goStr "ok", []⟩

/-- A response that failed with the rate-limit detail. -/
def rateResponse : PushResponse :=
  ⟨goStr "error", [("error", goStr "MessageRateExceeded")]⟩

/-- A response that failed for another reason. -/
def unregisteredResponse : PushResponse :=
  ⟨goStr "error", [("error", goStr "DeviceNotRegistered")]⟩

/-- A gateway that answers every call with five responses, the third of which
is a rate-limit failure. -/
def rateGateway : Gateway :=
  { PublishMultiple := fun _ _ =>
      ([okResponse, okResponse, rateResponse, okResponse, okResponse], none)
    ValidateResponse := fun r => if r.Status = goStr "ok" then none else some ⟨"invalid"⟩
    ErrorMessageRateExceeded := goStr "MessageRateExceeded" }

/-- A gateway that answers every call with failures other than rate limit. -/
def unregisteredGateway : Gateway :=
  { PublishMultiple := fun _ _ => ([okResponse, unregisteredResponse], none)
    ValidateResponse := fun r => if r.Status = goStr "ok" then none else some ⟨"invalid"⟩
    ErrorMessageRateExceeded := goStr "MessageRateExceeded" }

/-- A list of five prepared messages. -/
def fiveMessages : List MessageData := List.replicate 5 sampleTarget

/-- A receipt with a valid payload, nobody in `To` and no channel. -/
def emptyRcpt : Receipt GoString Nat Nat :=
  { To := [], Channel := [], Payload := sampleMsg }

/-- The sample environment with a registry that fails. -/
def brokenRegistryDeps : Deps GoString Nat Nat :=
  { sampleDeps with GetAll := fun _ => ([], 0, some ⟨"db error"⟩) }

/-- The scenario receipt with a payload of unknown kind. -/
def unknownKindRcpt : Receipt GoString Nat Nat :=
  { sampleRcpt with Payload := { sampleMsg with What := goStr "pres" } }

/-- The scenario receipt with a channel name set. -/
def channelRcpt : Receipt GoString Nat Nat :=
  { sampleRcpt with Channel := goStr "chn1" }

/-- The sample environment with a registry that knows user 2 but no device. -/
def noDeviceDeps : Deps GoString Nat Nat :=
  { sampleDeps with GetAll := fun _ => ([(2, [])], 0, none) }

/-- A registry that knows an iOS and an Android device of user 2, and an iOS
device of user 5, who is not in `To`. -/
def badgeDeps : Deps GoString Nat Nat :=
  { sampleDeps with
    GetAll := fun _ =>
      ([(2, [⟨goStr "ios-2", goStr "ios"⟩, ⟨goStr "and-2", goStr "android"⟩]),
        (5, [⟨goStr "ios-5", goStr "ios"⟩])], 3, none) }

/-- The configuration text with `enabled` set to true. -/
def enabledConf : GoString := goStr "\x7b\"enabled\": true\x7d"

/-- The configuration text with `enabled` set to false. -/
def disabledConf : GoString := goStr "\x7b\"enabled\": false\x7d"

/-- A configuration text that is not JSON. -/
def brokenConf : GoString := goStr "enabled"

/-- A parser for the handler configuration, standing for `json.Unmarshal`: it
knows `enabledConf` and `disabledConf` and reports an error on anything else. -/
def sampleUnmarshal (jsonconf : GoString) : configType × Option GoError :=
  if jsonconf = enabledConf then (⟨true, [], [], 0⟩, none)
  else if jsonconf = disabledConf then (⟨false, [], [], 0⟩, none)
  else (⟨false, [], [], 0⟩, some ⟨"invalid character"⟩)

/-- The sample message payload with a negative sequence number. -/
def negSeqMsg : Payload GoString Nat Nat :=
  { sampleMsg with SeqId := -120 }

/-! ## Lemmas: UTF-8 -/

theorem decodeRune_width_pos (b : Nat) (rest : GoString) :
    1 ≤ (decodeRune (b :: rest)).2 := by
  simp only [decodeRune]
  repeat' split
  all_goals simp

theorem decodeRune_width_le (b : Nat) (rest : GoString) :
    (decodeRune (b :: rest)).2 ≤ (b :: rest).length := by
  simp only [decodeRune]
  repeat' split
  all_goals simp

theorem decodeRune_valid (s : GoString) : validRune (decodeRune s).1 := by
  unfold validRune
  cases s with
  | nil => simp [decodeRune, RuneError]
  | cons b rest =>
    simp only [decodeRune]
    repeat' split
    all_goals simp only [RuneError, isCont, Bool.and_eq_true, decide_eq_true_eq,
      Bool.not_eq_true, Bool.not_eq_true', not_or, not_lt, not_and, Bool.and_eq_false_imp,
      decide_eq_false_iff_not, not_le] at *
    all_goals omega

theorem decodeRune_encodeRune (r : Nat) (h : validRune r) (bs : GoString) :
    decodeRune (encodeRune r ++ bs) = (r, (encodeRune r).length) := by
  unfold validRune at h
  unfold encodeRune
  split_ifs with h1 h2 h3 h4
  · have : r < 128 := by omega
    simp [decodeRune, this]
  · simp only [List.cons_append, List.nil_append, decodeRune, isCont, List.length_cons,
      List.length_nil, Bool.and_eq_true, decide_eq_true_eq]
    rw [if_neg (by omega), if_pos (by omega), if_pos (by omega)]
    refine Prod.ext ?_ rfl
    show (192 + r / 64) % 32 * 64 + (128 + r % 64) % 64 = r
    omega
  · omega
  · simp only [List.cons_append, List.nil_append, decodeRune, isCont, List.length_cons,
      List.length_nil, Bool.and_eq_true, decide_eq_true_eq, Bool.not_eq_true',
      Bool.and_eq_false_imp, decide_eq_false_iff_not, not_le]
    rw [if_neg (by omega), if_neg (by omega), if_pos (by omega), if_neg, if_neg (by omega)]
    · refine Prod.ext ?_ rfl
      show (224 + r / 4096) % 16 * 4096 + (128 + r / 64 % 64) % 64 * 64 + (128 + r % 64) % 64 = r
      omega
    · split_ifs <;> omega
  · simp only [List.cons_append, List.nil_append, decodeRune, isCont, List.length_cons,
      List.length_nil, Bool.and_eq_true, decide_eq_true_eq, Bool.not_eq_true',
      Bool.and_eq_false_imp, decide_eq_false_iff_not, not_le]
    rw [if_neg (by omega), if_neg (by omega), if_neg (by omega), if_pos (by omega), if_neg,
      if_neg (by omega), if_neg (by omega)]
    · refine Prod.ext ?_ rfl
      show (240 + r / 262144) % 8 * 262144 + (128 + r / 4096 % 64) % 64 * 4096
        + (128 + r / 64 % 64) % 64 * 64 + (128 + r % 64) % 64 = r
      omega
    · split_ifs <;> omega

theorem toRunesFuel_length_le (fuel : Nat) (s : GoString) :
    (toRunesFuel fuel s).length ≤ s.length := by
  induction fuel generalizing s with
  | zero => simp [toRunesFuel]
  | succ f ih =>
    cases s with
    | nil => simp [toRunesFuel]
    | cons b rest =>
      simp only [toRunesFuel, List.length_cons]
      have := ih (rest.drop ((decodeRune (b :: rest)).2 - 1))
      simp only [List.length_drop] at this
      omega

theorem toRunesFuel_valid (fuel : Nat) (s : GoString) :
    ∀ r ∈ toRunesFuel fuel s, validRune r := by
  induction fuel generalizing s with
  | zero => simp [toRunesFuel]
  | succ f ih =>
    cases s with
    | nil => simp [toRunesFuel]
    | cons b rest =>
      intro r hr
      simp only [toRunesFuel, List.mem_cons] at hr
      rcases hr with rfl | hr
      · exact decodeRune_valid _
      · exact ih _ r hr

theorem toRunesFuel_enough (fuel : Nat) :
    ∀ s : GoString, s.length ≤ fuel → toRunesFuel fuel s = toRunesFuel s.length s := by
  induction fuel using Nat.strong_induction_on with
  | _ fuel ih =>
    intro s hs
    cases s with
    | nil => cases fuel <;> simp [toRunesFuel]
    | cons b rest =>
      cases fuel with
      | zero => simp at hs
      | succ f =>
        simp only [List.length_cons] at hs
        simp only [toRunesFuel, List.length_cons]
        have hd : (rest.drop ((decodeRune (b :: rest)).2 - 1)).length ≤ rest.length := by
          simp only [List.length_drop]; omega
        rw [ih f (by omega) _ (by omega), ih rest.length (by omega) _ hd]

theorem toRunes_nil : toRunes [] = [] := rfl

/-- The loop equation of `[]rune(s)`: the byte length never runs out as fuel. -/
theorem toRunes_cons (b : Nat) (rest : GoString) :
    toRunes (b :: rest) = (decodeRune (b :: rest)).1 ::
      toRunes (rest.drop ((decodeRune (b :: rest)).2 - 1)) := by
  have hd : (rest.drop ((decodeRune (b :: rest)).2 - 1)).length ≤ rest.length := by
    simp only [List.length_drop]; omega
  simp only [toRunes, List.length_cons, toRunesFuel]
  rw [toRunesFuel_enough rest.length _ hd]

theorem toRunes_length_le (s : GoString) : (toRunes s).length ≤ len s :=
  toRunesFuel_length_le _ _

theorem toRunes_valid (s : GoString) : ∀ r ∈ toRunes s, validRune r :=
  toRunesFuel_valid _ _

theorem encodeRune_ne_nil (r : Nat) : encodeRune r ≠ [] := by
  unfold encodeRune; split_ifs <;> simp

theorem toRunes_encodeRune_append (r : Nat) (h : validRune r) (bs : GoString) :
    toRunes (encodeRune r ++ bs) = r :: toRunes bs := by
  have hdec := decodeRune_encodeRune r h bs
  cases he : encodeRune r with
  | nil => exact absurd he (encodeRune_ne_nil r)
  | cons b tl =>
    rw [he] at hdec
    simp only [List.cons_append] at hdec ⊢
    rw [toRunes_cons, hdec]
    simp

theorem toRunes_fromRunes_append (rs : List Nat) (h : ∀ r ∈ rs, validRune r) (bs : GoString) :
    toRunes (fromRunes rs ++ bs) = rs ++ toRunes bs := by
  induction rs with
  | nil => simp [fromRunes]
  | cons r rs ih =>
    have hr : validRune r := h r (List.mem_cons_self _ _)
    have hrs : ∀ x ∈ rs, validRune x := fun x hx => h x (List.mem_cons_of_mem _ hx)
    have : fromRunes (r :: rs) = encodeRune r ++ fromRunes rs := by simp [fromRunes]
    rw [this, List.append_assoc, toRunes_encodeRune_append r hr, ih hrs]
    simp

theorem toRunes_fromRunes (rs : List Nat) (h : ∀ r ∈ rs, validRune r) :
    toRunes (fromRunes rs) = rs := by
  have := toRunes_fromRunes_append rs h []
  simpa [toRunes_nil] using this

/-! ## Lemmas: maps -/

theorem StrMap.get_set (m : StrMap) (k : String) (v : GoString) (k2 : String) :
    (StrMap.set m k v).get k2 = if k = k2 then some v else m.get k2 := by
  induction m with
  | nil => simp [StrMap.set, StrMap.get]
  | cons e rest ih =>
    obtain ⟨k1, v1⟩ := e
    simp only [StrMap.set]
    split_ifs with h1 h2
    · subst h1; simp [StrMap.get, h2]
    · subst h1; simp [StrMap.get, h2]
    · subst ‹k = k2›; simp [StrMap.get, h1, ih]
    · simp only [StrMap.get, ih]
      rw [if_neg ‹¬k = k2›]

theorem StrMap.mem_keys_set (m : StrMap) (k : String) (v : GoString) (k2 : String) :
    k2 ∈ (StrMap.set m k v).keys ↔ k2 = k ∨ k2 ∈ m.keys := by
  induction m with
  | nil => simp [StrMap.set, StrMap.keys]
  | cons e rest ih =>
    obtain ⟨k1, v1⟩ := e
    simp only [StrMap.set]
    split_ifs with h1
    · subst h1; simp [StrMap.keys]
    · simp only [StrMap.keys, List.map_cons, List.mem_cons] at ih ⊢
      rw [ih]; tauto

theorem StrMap.nodup_keys_set (m : StrMap) (k : String) (v : GoString)
    (h : m.keys.Nodup) : (StrMap.set m k v).keys.Nodup := by
  induction m with
  | nil => simp [StrMap.set, StrMap.keys]
  | cons e rest ih =>
    obtain ⟨k1, v1⟩ := e
    simp only [StrMap.keys, List.map_cons, List.nodup_cons] at h
    simp only [StrMap.set]
    split_ifs with h1
    · subst h1; simpa [StrMap.keys] using h
    · have hmem := StrMap.mem_keys_set rest k v k1
      simp only [StrMap.keys] at hmem ih ⊢
      simp only [List.map_cons, List.nodup_cons]
      refine ⟨?_, ih h.2⟩
      rw [hmem]
      rintro (h2 | h2)
      · exact h1 h2
      · exact h.1 h2

theorem StrMap.mem_keys_iff_get (m : StrMap) (k : String) :
    k ∈ m.keys ↔ (m.get k).isSome = true := by
  induction m with
  | nil => simp [StrMap.keys, StrMap.get]
  | cons e rest ih =>
    obtain ⟨k1, v1⟩ := e
    simp only [StrMap.keys, List.map_cons, List.mem_cons, StrMap.get] at ih ⊢
    split_ifs with h1
    · subst h1; simp
    · rw [← ih]
      constructor
      · rintro (h | h)
        · exact absurd h.symm h1
        · exact h
      · exact Or.inr

theorem StrMap.index_set (m : StrMap) (k : String) (v : GoString) (k2 : String) :
    (StrMap.set m k v).index k2 = if k = k2 then v else m.index k2 := by
  simp only [StrMap.index, StrMap.get_set]
  split_ifs <;> rfl

/-! ## Lemmas: payloadToData -/

theorem payloadToData_some_eq {C T M : Type} (deps : Deps C T M) (pl : Payload C T M) :
    payloadToData deps (some pl) =
      if pl.What = deps.ActMsg then
        match (deps.ToPlainText pl.Content).2 with
        | some err => (none, some err)
        | none => (some (trimData ((((commonData deps pl).set "seq" (Itoa pl.SeqId)).set
            "mime" pl.ContentType).set "content" (deps.ToPlainText pl.Content).1)), none)
      else if pl.What = deps.ActSub then
        (some (((commonData deps pl).set "modeWant" (deps.ModeString pl.ModeWant)).set
          "modeGiven" (deps.ModeString pl.ModeGiven)), none)
      else (none, some ⟨"unknown push type"⟩) := rfl

theorem StrMap.nodup_keys_nil : StrMap.keys ([] : StrMap) |>.Nodup := List.nodup_nil

theorem StrMap.mem_keys_nil (k : String) : k ∈ StrMap.keys ([] : StrMap) ↔ False := by
  simp [StrMap.keys]

theorem StrMap.get_nil (k : String) : StrMap.get [] k = none := rfl

theorem commonData_nodup {C T M : Type} (deps : Deps C T M) (pl : Payload C T M) :
    (commonData deps pl).keys.Nodup := by
  unfold commonData
  split_ifs <;> repeat (first | apply StrMap.nodup_keys_set | exact StrMap.nodup_keys_nil)

theorem mem_keys_commonData {C T M : Type} (deps : Deps C T M) (pl : Payload C T M)
    (k : String) : k ∈ (commonData deps pl).keys ↔
      (k ∈ ["what", "topic", "ts", "xfrom"] ∨ (k = "silent" ∧ pl.Silent = true)) := by
  unfold commonData
  split_ifs <;>
    simp only [StrMap.mem_keys_set, StrMap.mem_keys_nil, List.mem_cons, List.mem_singleton,
      List.mem_nil_iff, *] <;> tauto

theorem trimData_nodup (data : StrMap) (h : data.keys.Nodup) : (trimData data).keys.Nodup := by
  unfold trimData
  dsimp only
  split_ifs
  · exact StrMap.nodup_keys_set _ _ _ h
  · exact h
  · exact h

theorem mem_keys_trimData (data : StrMap) (h : "content" ∈ data.keys) (k : String) :
    k ∈ (trimData data).keys ↔ k ∈ data.keys := by
  unfold trimData
  dsimp only
  split_ifs
  · rw [StrMap.mem_keys_set]
    constructor
    · rintro (rfl | h2)
      · exact h
      · exact h2
    · exact Or.inr
  · rfl
  · rfl

theorem get_trimData (data : StrMap) (k : String) (hk : k ≠ "content") :
    (trimData data).get k = data.get k := by
  unfold trimData
  dsimp only
  split_ifs
  · rw [StrMap.get_set, if_neg (fun h => hk h.symm)]
  · rfl
  · rfl

theorem index_trimData_content (data : StrMap) :
    (trimData data).index "content" = trimContent (data.index "content") := by
  unfold trimData trimContent
  dsimp only
  split_ifs
  · rw [StrMap.index_set, if_pos rfl]
  · rfl
  · rfl

theorem StrMap.get_eq_index (m : StrMap) (k : String) (h : k ∈ m.keys) :
    m.get k = some (m.index k) := by
  rw [StrMap.mem_keys_iff_get] at h
  unfold StrMap.index
  cases hg : m.get k with
  | none => rw [hg] at h; simp at h
  | some v => rfl

theorem get_trimData_content (data : StrMap) (h : "content" ∈ data.keys) :
    (trimData data).get "content" = some (trimContent (data.index "content")) := by
  rw [StrMap.get_eq_index _ _ ((mem_keys_trimData data h _).2 h), index_trimData_content]

theorem get_commonData {C T M : Type} (deps : Deps C T M) (pl : Payload C T M) (k : String) :
    (commonData deps pl).get k =
      if k = "xfrom" then some pl.From
      else if k = "ts" then some (deps.FormatRFC3339Nano pl.Timestamp)
      else if k = "topic" then some pl.Topic
      else if k = "silent" then (if pl.Silent = true then some (goStr "true") else none)
      else if k = "what" then some pl.What
      else none := by
  unfold commonData
  dsimp only
  by_cases h1 : k = "xfrom"
  · subst h1; simp [StrMap.get_set]
  by_cases h2 : k = "ts"
  · subst h2; simp [StrMap.get_set]
  by_cases h3 : k = "topic"
  · subst h3; simp [StrMap.get_set]
  by_cases h4 : k = "silent"
  · subst h4; cases hS : pl.Silent <;> simp [StrMap.get_set, StrMap.get_nil]
  by_cases h5 : k = "what"
  · subst h5; cases hS : pl.Silent <;> simp [StrMap.get_set, StrMap.get_nil]
  · have e1 : ¬ "xfrom" = k := fun h => h1 h.symm
    have e2 : ¬ "ts" = k := fun h => h2 h.symm
    have e3 : ¬ "topic" = k := fun h => h3 h.symm
    have e4 : ¬ "silent" = k := fun h => h4 h.symm
    have e5 : ¬ "what" = k := fun h => h5 h.symm
    cases hS : pl.Silent <;> simp [StrMap.get_set, StrMap.get_nil, *]

/-- C1: a message payload whose content converts to plain text normalises
successfully, and the keys of the result are exactly what, topic, ts, xfrom,
seq, mime, content, plus silent (with value "true") exactly when the payload
is silent. -/
theorem payloadToData_message_keys {C T M : Type} (deps : Deps C T M) (pl : Payload C T M)
    (hw : pl.What = deps.ActMsg) (ht : (deps.ToPlainText pl.Content).2 = none) :
    ∃ data, payloadToData deps (some pl) = (some data, none) ∧
      data.keys.Nodup ∧
      (∀ k, k ∈ data.keys ↔
        (k ∈ ["what", "topic", "ts", "xfrom", "seq", "mime", "content"] ∨
          (k = "silent" ∧ pl.Silent = true))) ∧
      (pl.Silent = true → data.get "silent" = some (goStr "true")) := by
  rw [payloadToData_some_eq, if_pos hw, ht]
  have hc : "content" ∈ StrMap.keys ((((commonData deps pl).set "seq" (Itoa pl.SeqId)).set
      "mime" pl.ContentType).set "content" (deps.ToPlainText pl.Content).1) := by
    rw [StrMap.mem_keys_set]; exact Or.inl rfl
  refine ⟨_, rfl, ?_, ?_, ?_⟩
  · exact trimData_nodup _ (StrMap.nodup_keys_set _ _ _ (StrMap.nodup_keys_set _ _ _
      (StrMap.nodup_keys_set _ _ _ (commonData_nodup deps pl))))
  · intro k
    rw [mem_keys_trimData _ hc]
    simp only [StrMap.mem_keys_set, mem_keys_commonData, List.mem_cons, List.mem_singleton,
      List.mem_nil_iff]
    tauto
  · intro hs
    rw [get_trimData _ _ (by decide)]
    simp [StrMap.get_set, get_commonData, hs]

/-- Witness for C1 on the sample message payload. -/
theorem payloadToData_message_keys_witness :
    sampleMsg.What = sampleDeps.ActMsg ∧ (sampleDeps.ToPlainText sampleMsg.Content).2 = none ∧
    ∃ data, payloadToData sampleDeps (some sampleMsg) = (some data, none) ∧
      data.keys.Nodup ∧
      (∀ k, k ∈ data.keys ↔
        (k ∈ ["what", "topic", "ts", "xfrom", "seq", "mime", "content"] ∨
          (k = "silent" ∧ sampleMsg.Silent = true))) ∧
      (sampleMsg.Silent = true → data.get "silent" = some (goStr "true")) :=
  ⟨rfl, rfl, payloadToData_message_keys sampleDeps sampleMsg rfl rfl⟩

/-- C2: a subscription-change payload normalises successfully, and the keys of
the result are exactly what, topic, ts, xfrom, modeWant, modeGiven, plus silent
exactly when the payload is silent; seq, mime and content are absent. -/
theorem payloadToData_subscription_keys {C T M : Type} (deps : Deps C T M)
    (pl : Payload C T M) (hkinds : deps.ActSub ≠ deps.ActMsg) (hw : pl.What = deps.ActSub) :
    ∃ data, payloadToData deps (some pl) = (some data, none) ∧
      data.keys.Nodup ∧
      (∀ k, k ∈ data.keys ↔
        (k ∈ ["what", "topic", "ts", "xfrom", "modeWant", "modeGiven"] ∨
          (k = "silent" ∧ pl.Silent = true))) ∧
      "seq" ∉ data.keys ∧ "mime" ∉ data.keys ∧ "content" ∉ data.keys := by
  have hne : ¬ pl.What = deps.ActMsg := by rw [hw]; exact hkinds
  rw [payloadToData_some_eq, if_neg hne, if_pos hw]
  have hk : ∀ k, k ∈ StrMap.keys (((commonData deps pl).set "modeWant"
      (deps.ModeString pl.ModeWant)).set "modeGiven" (deps.ModeString pl.ModeGiven)) ↔
        (k ∈ ["what", "topic", "ts", "xfrom", "modeWant", "modeGiven"] ∨
          (k = "silent" ∧ pl.Silent = true)) := by
    intro k
    simp only [StrMap.mem_keys_set, mem_keys_commonData, List.mem_cons, List.mem_singleton,
      List.mem_nil_iff]
    tauto
  refine ⟨_, rfl, ?_, hk, ?_, ?_, ?_⟩
  · exact StrMap.nodup_keys_set _ _ _ (StrMap.nodup_keys_set _ _ _ (commonData_nodup deps pl))
  · rw [hk]; simp
  · rw [hk]; simp
  · rw [hk]; simp

/-- Witness for C2 on the sample subscription-change payload. -/
theorem payloadToData_subscription_keys_witness :
    sampleDeps.ActSub ≠ sampleDeps.ActMsg ∧ sampleSub.What = sampleDeps.ActSub ∧
    ∃ data, payloadToData sampleDeps (some sampleSub) = (some data, none) ∧
      data.keys.Nodup ∧
      (∀ k, k ∈ data.keys ↔
        (k ∈ ["what", "topic", "ts", "xfrom", "modeWant", "modeGiven"] ∨
          (k = "silent" ∧ sampleSub.Silent = true))) ∧
      "seq" ∉ data.keys ∧ "mime" ∉ data.keys ∧ "content" ∉ data.keys :=
  ⟨by decide, rfl, payloadToData_subscription_keys sampleDeps sampleSub (by decide) rfl⟩

/-- C3: payloadToData returns an error exactly when the payload reference is
nil, or the kind is neither message nor subscription-change, or the kind is
message and plain-text extraction fails; and with an error the returned map is
nil. -/
theorem payloadToData_error_iff {C T M : Type} (deps : Deps C T M)
    (pl : Option (Payload C T M)) :
    ((payloadToData deps pl).2 ≠ none ↔
      (pl = none ∨ ∃ p, pl = some p ∧
        ((p.What ≠ deps.ActMsg ∧ p.What ≠ deps.ActSub) ∨
          (p.What = deps.ActMsg ∧ (deps.ToPlainText p.Content).2 ≠ none)))) ∧
    ((payloadToData deps pl).2 ≠ none → (payloadToData deps pl).1 = none) := by
  cases pl with
  | none => simp [payloadToData]
  | some p =>
    rw [payloadToData_some_eq]
    by_cases h1 : p.What = deps.ActMsg
    · rw [if_pos h1]
      cases h2 : (deps.ToPlainText p.Content).2 with
      | none => simp [h1, h2]
      | some err => simp [h1, h2]
    · rw [if_neg h1]
      by_cases h3 : p.What = deps.ActSub
      · rw [if_pos h3]
        simp only [ne_eq, not_true_eq_false, Option.some.injEq, exists_eq_left', false_iff,
          reduceCtorEq, false_or, not_or, not_and, not_not, false_implies, and_true]
        exact ⟨fun _ => h3, fun h => absurd h h1⟩
      · rw [if_neg h3]; simp [h1, h3]

/-- A call of payloadToData on a non-nil payload either fails or returns a map
with unique keys. -/
theorem payloadToData_result {C T M : Type} (deps : Deps C T M) (pl : Payload C T M) :
    (payloadToData deps (some pl)).2 ≠ none ∨
    ∃ data, payloadToData deps (some pl) = (some data, none) ∧ data.keys.Nodup := by
  rw [payloadToData_some_eq]
  split_ifs with h1 h2
  · cases ht : (deps.ToPlainText pl.Content).2 with
    | some err => exact Or.inl (by simp)
    | none =>
      exact Or.inr ⟨_, rfl, trimData_nodup _ (StrMap.nodup_keys_set _ _ _
        (StrMap.nodup_keys_set _ _ _ (StrMap.nodup_keys_set _ _ _ (commonData_nodup deps pl))))⟩
  · exact Or.inr ⟨_, rfl, StrMap.nodup_keys_set _ _ _ (StrMap.nodup_keys_set _ _ _
      (commonData_nodup deps pl))⟩
  · exact Or.inl (by simp)

/-! ## Truncation -/

theorem toRunes_ellipsis : toRunes (goStr "…") = [0x2026] := by decide

theorem trimContent_short (s : GoString) (h : (toRunes s).length ≤ 80) :
    trimContent s = s := by
  unfold trimContent
  dsimp only
  split_ifs with h1 h2
  · simp only [maxMessageLength] at h2; omega
  · rfl
  · rfl

theorem trimContent_long (s : GoString) (h : (toRunes s).length > 80) :
    trimContent s = fromRunes ((toRunes s).take 80) ++ goStr "…" := by
  have hl := toRunes_length_le s
  unfold trimContent
  dsimp only
  rw [if_pos (by simp only [maxMessageLength]; omega),
    if_pos (by simp only [maxMessageLength]; omega)]
  rfl

theorem toRunes_clipped (s : GoString) :
    toRunes (fromRunes ((toRunes s).take 80) ++ goStr "…") = (toRunes s).take 80 ++ [0x2026] := by
  rw [toRunes_fromRunes_append _ (fun r hr => toRunes_valid s r (List.mem_of_mem_take hr)),
    toRunes_ellipsis]

/-- C4: for a message payload with extracted plain text `s`, the content
attribute is `s` itself when `s` has at most 80 runes (whatever its byte
length), and otherwise the first 80 runes of `s` followed by one ellipsis
character: as a string, and rune by rune. -/
theorem payloadToData_content {C T M : Type} (deps : Deps C T M) (pl : Payload C T M)
    (hw : pl.What = deps.ActMsg) (ht : (deps.ToPlainText pl.Content).2 = none) :
    ∃ data, payloadToData deps (some pl) = (some data, none) ∧
      ((toRunes (deps.ToPlainText pl.Content).1).length ≤ 80 →
        data.get "content" = some (deps.ToPlainText pl.Content).1) ∧
      ((toRunes (deps.ToPlainText pl.Content).1).length > 80 →
        data.get "content" =
          some (fromRunes ((toRunes (deps.ToPlainText pl.Content).1).take 80) ++ goStr "…") ∧
        toRunes (data.index "content") =
          (toRunes (deps.ToPlainText pl.Content).1).take 80 ++ [0x2026]) := by
  rw [payloadToData_some_eq, if_pos hw, ht]
  refine ⟨_, rfl, ?_, ?_⟩
  · intro h
    rw [get_trimData_content, StrMap.index_set, if_pos rfl, trimContent_short _ h]
    exact (StrMap.mem_keys_set _ _ _ _).2 (Or.inl rfl)
  · intro h
    rw [index_trimData_content, get_trimData_content, StrMap.index_set, if_pos rfl,
      trimContent_long _ h]
    · exact ⟨rfl, toRunes_clipped _⟩
    · exact (StrMap.mem_keys_set _ _ _ _).2 (Or.inl rfl)

/-- Witness for C4 on a payload whose text is 81 letters. -/
theorem payloadToData_content_witness :
    longMsg.What = sampleDeps.ActMsg ∧ (sampleDeps.ToPlainText longMsg.Content).2 = none ∧
    ∃ data, payloadToData sampleDeps (some longMsg) = (some data, none) ∧
      ((toRunes (sampleDeps.ToPlainText longMsg.Content).1).length ≤ 80 →
        data.get "content" = some (sampleDeps.ToPlainText longMsg.Content).1) ∧
      ((toRunes (sampleDeps.ToPlainText longMsg.Content).1).length > 80 →
        data.get "content" =
          some (fromRunes ((toRunes (sampleDeps.ToPlainText longMsg.Content).1).take 80)
            ++ goStr "…") ∧
        toRunes (data.index "content") =
          (toRunes (sampleDeps.ToPlainText longMsg.Content).1).take 80 ++ [0x2026]) :=
  ⟨rfl, rfl, payloadToData_content sampleDeps longMsg rfl rfl⟩

theorem StrMap.set_set (m : StrMap) (k : String) (v w : GoString) :
    (StrMap.set m k v).set k w = StrMap.set m k w := by
  induction m with
  | nil => simp [StrMap.set]
  | cons e rest ih =>
    obtain ⟨k1, v1⟩ := e
    simp only [StrMap.set]
    split_ifs with h1
    · simp [StrMap.set]
    · simp [StrMap.set, h1, ih]

theorem trimData_trimData (data : StrMap) : trimData (trimData data) = trimData data := by
  by_cases h : len (data.index "content") > maxMessageLength ∧
      (toRunes (data.index "content")).length > maxMessageLength
  · have h1 : trimData data = data.set "content"
        (fromRunes ((toRunes (data.index "content")).take 80) ++ goStr "…") := by
      unfold trimData
      dsimp only
      rw [if_pos h.1, if_pos h.2]
      rfl
    have hr := toRunes_clipped (data.index "content")
    have hlen : (toRunes (fromRunes ((toRunes (data.index "content")).take 80)
        ++ goStr "…")).length = 81 := by
      have := h.2
      simp only [maxMessageLength] at this
      rw [hr, List.length_append, List.length_take]
      simp only [List.length_singleton]
      omega
    have hbytes := toRunes_length_le (fromRunes ((toRunes (data.index "content")).take 80)
      ++ goStr "…")
    rw [h1]
    unfold trimData
    dsimp only
    rw [StrMap.index_set, if_pos rfl, if_pos (by simp only [maxMessageLength]; omega),
      if_pos (by simp only [maxMessageLength]; omega), StrMap.set_set, hr]
    simp only [maxMessageLength]
    have htake : 80 ≤ ((toRunes (data.index "content")).take 80).length := by
      have := h.2
      simp only [maxMessageLength] at this
      rw [List.length_take]
      omega
    rw [List.take_append_of_le_length htake, List.take_take]
    simp
  · have h1 : trimData data = data := by
      unfold trimData
      dsimp only
      split_ifs with a b
      · exact absurd ⟨a, b⟩ h
      · rfl
      · rfl
    rw [h1, h1]

/-- C5: the truncation block is idempotent: run on its own output it changes
nothing, on the attribute map and so on the text stored under `content`;
re-normalising already truncated content is a no-op. -/
theorem trimData_idempotent (data : StrMap) (s : GoString) :
    trimData (trimData data) = trimData data ∧
    trimContent (trimContent s) = trimContent s := by
  refine ⟨trimData_trimData data, ?_⟩
  have h := congrArg (fun m => StrMap.index m "content")
    (trimData_trimData [("content", s)])
  simp only [index_trimData_content] at h
  exact h

/-- C6 at a failing input: for a message whose plain text is 81 ASCII letters
the content attribute has 81 runes, one more than `maxMessageLength`. -/
theorem payloadToData_content_81_runes :
    ∃ data, payloadToData sampleDeps (some longMsg) = (some data, none) ∧
      (toRunes (data.index "content")).length = 81 ∧
      ¬ (toRunes (data.index "content")).length ≤ maxMessageLength :=
  ⟨_, rfl, by decide, by decide⟩

/-- The general bound behind C6: the content attribute of a message payload
never has more than `maxMessageLength + 1` runes. -/
theorem payloadToData_content_le_81 {C T M : Type} (deps : Deps C T M) (pl : Payload C T M)
    (data : StrMap) (hw : pl.What = deps.ActMsg)
    (h : payloadToData deps (some pl) = (some data, none)) :
    (toRunes (data.index "content")).length ≤ maxMessageLength + 1 := by
  rw [payloadToData_some_eq, if_pos hw] at h
  cases ht : (deps.ToPlainText pl.Content).2 with
  | some err => rw [ht] at h; simp at h
  | none =>
    rw [ht] at h
    simp only [Prod.mk.injEq, Option.some.injEq, and_true] at h
    rw [← h, index_trimData_content, StrMap.index_set, if_pos rfl]
    by_cases hl : (toRunes (deps.ToPlainText pl.Content).1).length ≤ 80
    · rw [trimContent_short _ hl]; simp only [maxMessageLength]; omega
    · rw [trimContent_long _ (by omega), toRunes_clipped, List.length_append, List.length_take]
      simp only [maxMessageLength, List.length_singleton]
      omega

/-! ## Lemmas: heap and clonePayload -/

theorem Heap.deref_append_lt (h ext : Heap) (r : MapRef) (hr : r < h.length) :
    Heap.deref (h ++ ext) r = Heap.deref h r := by
  simp [Heap.deref, List.getD_eq_getElem?_getD, List.getElem?_append_left hr]

theorem Heap.deref_append_length (h : Heap) (m : StrMap) :
    Heap.deref (h ++ [m]) h.length = m := by
  simp [Heap.deref, List.getD_eq_getElem?_getD]

theorem Heap.store_append_length (h : Heap) (m : StrMap) (k : String) (v : GoString) :
    Heap.store (h ++ [m]) h.length k v = h ++ [m.set k v] := by
  unfold Heap.store
  rw [Heap.deref_append_length]
  simp

theorem foldl_store_append (h : Heap) (src acc : StrMap) :
    src.foldl (fun hp kv => Heap.store hp h.length kv.1 kv.2) (h ++ [acc]) =
      h ++ [src.foldl (fun m kv => m.set kv.1 kv.2) acc] := by
  induction src generalizing acc with
  | nil => rfl
  | cons e rest ih =>
    simp only [List.foldl_cons]
    rw [Heap.store_append_length, ih]

theorem clonePayload_eq (h : Heap) (src : MapRef) :
    clonePayload h src = (h ++ [cloneMap (h.deref src)], h.length) := by
  unfold clonePayload Heap.alloc cloneMap
  simp only
  rw [foldl_store_append]

theorem foldl_set_get (src acc : StrMap) (hnd : src.keys.Nodup) (k : String) :
    (src.foldl (fun m kv => m.set kv.1 kv.2) acc).get k =
      if k ∈ src.keys then src.get k else acc.get k := by
  induction src generalizing acc with
  | nil => simp [StrMap.keys]
  | cons e rest ih =>
    obtain ⟨k1, v1⟩ := e
    simp only [StrMap.keys, List.map_cons, List.nodup_cons] at hnd
    simp only [List.foldl_cons]
    rw [ih _ hnd.2]
    simp only [StrMap.keys, List.map_cons, List.mem_cons, StrMap.get]
    by_cases hk : k1 = k
    · subst hk
      rw [if_neg hnd.1, StrMap.get_set, if_pos rfl]
      simp
    · have hk2 : ¬ k = k1 := fun h => hk h.symm
      rw [StrMap.get_set, if_neg hk, if_neg hk]
      simp only [hk2, false_or]

/-- A clone has the contents of its source. -/
theorem cloneMap_get (src : StrMap) (hnd : src.keys.Nodup) (k : String) :
    (cloneMap src).get k = src.get k := by
  unfold cloneMap
  rw [foldl_set_get src [] hnd]
  split_ifs with h
  · rfl
  · rw [StrMap.mem_keys_iff_get] at h
    cases hg : src.get k with
    | none => rfl
    | some v => rw [hg] at h; simp at h

/-! ## Lemmas: the loops of PrepareNotifications -/

theorem deviceStep_eq (rcptTo : List (Nat × Recipient)) (skipDevices : List GoString)
    (uid : Nat) (userData : MapRef) (messages : List MessageData) (d : DeviceDef) :
    deviceStep rcptTo skipDevices uid userData messages d =
      if eligible skipDevices d = true then messages ++ [mkMessage rcptTo uid userData d]
      else messages := by
  unfold deviceStep eligible mkMessage
  by_cases h : d.DeviceId ∉ skipDevices ∧ d.DeviceId ≠ []
  · rw [if_pos h, if_pos (by simpa using h)]
    by_cases hp : d.Platform = goStr "ios" <;> simp [hp]
  · rw [if_neg h, if_neg (by simpa using h)]

theorem foldl_deviceStep (rcptTo : List (Nat × Recipient)) (skipDevices : List GoString)
    (uid : Nat) (userData : MapRef) (devList : List DeviceDef) (messages : List MessageData) :
    devList.foldl (deviceStep rcptTo skipDevices uid userData) messages =
      messages ++ (devList.filter (eligible skipDevices)).map (mkMessage rcptTo uid userData) := by
  induction devList generalizing messages with
  | nil => simp
  | cons d rest ih =>
    rw [List.foldl_cons, ih, deviceStep_eq]
    by_cases h : eligible skipDevices d = true
    · simp [h, List.filter_cons]
    · simp [h, List.filter_cons]

/-- The map reference `userStep` hands to the messages of one user. -/
theorem userStep_eq (rcptTo : List (Nat × Recipient)) (skipDevices : List GoString)
    (data : MapRef) (h : Heap) (msgs : List MessageData) (e : Nat × List DeviceDef) :
    userStep rcptTo skipDevices data (h, msgs) e =
      if (lookupTo rcptTo e.1).Delivered > 0 then
        (h ++ [(cloneMap (h.deref data)).set "silent" (goStr "true")],
          msgs ++ (e.2.filter (eligible skipDevices)).map (mkMessage rcptTo e.1 h.length))
      else (h, msgs ++ (e.2.filter (eligible skipDevices)).map (mkMessage rcptTo e.1 data)) := by
  unfold userStep
  simp only [clonePayload_eq, Heap.store_append_length, foldl_deviceStep]
  split_ifs <;> rfl

theorem strip_mkMessage (rcptTo : List (Nat × Recipient)) (uid : Nat) (r : MapRef)
    (d : DeviceDef) : (mkMessage rcptTo uid r d).strip = mkMessage rcptTo uid 0 d := rfl

/-- The messages of the user loop, up to their map references: one per
eligible device, user by user, in list order. -/
theorem foldl_userStep_strip (rcptTo : List (Nat × Recipient)) (skipDevices : List GoString)
    (data : MapRef) (devices : List (Nat × List DeviceDef)) (h : Heap)
    (msgs : List MessageData) :
    (devices.foldl (userStep rcptTo skipDevices data) (h, msgs)).2.map MessageData.strip =
      msgs.map MessageData.strip ++ devices.flatMap (fun e =>
        (e.2.filter (eligible skipDevices)).map (mkMessage rcptTo e.1 0)) := by
  induction devices generalizing h msgs with
  | nil => simp
  | cons e rest ih =>
    rw [List.foldl_cons, userStep_eq]
    split_ifs
    · rw [ih]
      simp [List.map_append, List.map_map, Function.comp_def, strip_mkMessage]
    · rw [ih]
      simp [List.map_append, List.map_map, Function.comp_def, strip_mkMessage]

theorem goodMessage_append (rcptTo : List (Nat × Recipient)) (data : MapRef) (shared : StrMap)
    (h ext : Heap) (m : MessageData) (hm : goodMessage rcptTo data shared h m) :
    goodMessage rcptTo data shared (h ++ ext) m := by
  unfold goodMessage at hm ⊢
  refine ⟨Nat.lt_of_lt_of_le hm.1 (by simp), ?_⟩
  split_ifs with hd
  · rw [Heap.deref_append_lt _ _ _ hm.1]
    simpa [hd] using hm.2
  · simpa [hd] using hm.2

theorem foldl_userStep_inv (rcptTo : List (Nat × Recipient)) (skipDevices : List GoString)
    (data : MapRef) (shared : StrMap) (devices : List (Nat × List DeviceDef)) (h : Heap)
    (msgs : List MessageData) (hdata : data < h.length) (hshared : h.deref data = shared)
    (hmsgs : ∀ m ∈ msgs, goodMessage rcptTo data shared h m) :
    (devices.foldl (userStep rcptTo skipDevices data) (h, msgs)).1.deref data = shared ∧
    ∀ m ∈ (devices.foldl (userStep rcptTo skipDevices data) (h, msgs)).2,
      goodMessage rcptTo data shared
        (devices.foldl (userStep rcptTo skipDevices data) (h, msgs)).1 m := by
  induction devices generalizing h msgs with
  | nil => exact ⟨hshared, hmsgs⟩
  | cons e rest ih =>
    rw [List.foldl_cons, userStep_eq]
    split_ifs with hd
    · apply ih
      · exact Nat.lt_of_lt_of_le hdata (by simp)
      · rw [Heap.deref_append_lt _ _ _ hdata, hshared]
      · intro m hm
        rw [List.mem_append] at hm
        rcases hm with hm | hm
        · exact goodMessage_append _ _ _ _ _ _ (hmsgs m hm)
        · rw [List.mem_map] at hm
          obtain ⟨d, _, rfl⟩ := hm
          refine ⟨by simp [mkMessage], ?_⟩
          have hu : (mkMessage rcptTo e.1 h.length d).Uid = e.1 := rfl
          rw [hu, if_pos hd]
          show Heap.deref _ h.length = _
          rw [Heap.deref_append_length, hshared]
    · apply ih _ _ hdata hshared
      intro m hm
      rw [List.mem_append] at hm
      rcases hm with hm | hm
      · exact hmsgs m hm
      · rw [List.mem_map] at hm
        obtain ⟨d, _, rfl⟩ := hm
        refine ⟨hdata, ?_⟩
        have hu : (mkMessage rcptTo e.1 data d).Uid = e.1 := rfl
        rw [hu, if_neg hd]
        rfl

theorem foldl_skipInsert_mem (devs : List GoString) (skip : List GoString) (x : GoString) :
    x ∈ devs.foldl skipInsert skip ↔ x ∈ skip ∨ x ∈ devs := by
  induction devs generalizing skip with
  | nil => simp
  | cons d rest ih =>
    rw [List.foldl_cons, ih]
    unfold skipInsert
    split_ifs with hd
    · simp only [List.mem_cons]
      constructor
      · rintro (h | h)
        · exact Or.inl h
        · exact Or.inr (Or.inr h)
      · rintro (h | h | h)
        · exact Or.inl h
        · subst h; exact Or.inl hd
        · exact Or.inr h
    · simp only [List.mem_append, List.mem_singleton, List.mem_cons]
      tauto

theorem collectTo_foldl (rcptTo : List (Nat × Recipient)) (st : List Nat × List GoString)
    (x : GoString) :
    ((rcptTo.foldl (fun st e => (st.1 ++ [e.1], e.2.Devices.foldl skipInsert st.2)) st).1 =
        st.1 ++ rcptTo.map Prod.fst) ∧
    (x ∈ (rcptTo.foldl (fun st e => (st.1 ++ [e.1], e.2.Devices.foldl skipInsert st.2)) st).2 ↔
        x ∈ st.2 ∨ x ∈ skipSet rcptTo) := by
  induction rcptTo generalizing st with
  | nil => simp [skipSet]
  | cons e rest ih =>
    rw [List.foldl_cons]
    obtain ⟨h1, h2⟩ := ih (st.1 ++ [e.1], e.2.Devices.foldl skipInsert st.2)
    refine ⟨by rw [h1]; simp, ?_⟩
    rw [h2, foldl_skipInsert_mem]
    simp only [skipSet, List.flatMap_cons, List.mem_append]
    tauto

/-- The UIDs handed to the registry are the keys of `To`, in iteration order. -/
theorem collectTo_uids (rcptTo : List (Nat × Recipient)) :
    (collectTo rcptTo).1 = rcptTo.map Prod.fst := by
  have := (collectTo_foldl rcptTo ([], []) []).1
  simpa [collectTo] using this

/-- The set `skipDevices` built by the loop over `To` is the skip-set. -/
theorem mem_collectTo_skip (rcptTo : List (Nat × Recipient)) (x : GoString) :
    x ∈ (collectTo rcptTo).2 ↔ x ∈ skipSet rcptTo := by
  have := (collectTo_foldl rcptTo ([], []) x).2
  simpa [collectTo] using this

theorem mem_skipSet (rcptTo : List (Nat × Recipient)) (x : GoString) :
    x ∈ skipSet rcptTo ↔ ∃ u r, (u, r) ∈ rcptTo ∧ x ∈ r.Devices := by
  simp only [skipSet, List.mem_flatMap, Prod.exists]

theorem PrepareNotifications_of_error {C T M : Type} (deps : Deps C T M) (rcpt : Receipt C T M)
    (h : (payloadToData deps (some rcpt.Payload)).2 ≠ none) :
    PrepareNotifications deps rcpt = ([], []) := by
  unfold PrepareNotifications
  cases hp : payloadToData deps (some rcpt.Payload) with
  | mk dm err =>
    rw [hp] at h
    cases err with
    | none => exact absurd rfl h
    | some e => rfl

theorem PrepareNotifications_of_ok {C T M : Type} (deps : Deps C T M) (rcpt : Receipt C T M)
    (shared : StrMap) (h : payloadToData deps (some rcpt.Payload) = (some shared, none)) :
    PrepareNotifications deps rcpt =
      if rcpt.To.length > 0 then
        match deps.GetAll (collectTo rcpt.To).1 with
        | (_, _, some _) => ([], [shared])
        | (devices, count, none) =>
          if count = 0 ∧ rcpt.Channel = [] then ([], [shared])
          else
            ((devices.foldl (userStep rcpt.To (collectTo rcpt.To).2 0) ([shared], [])).2,
              (devices.foldl (userStep rcpt.To (collectTo rcpt.To).2 0) ([shared], [])).1)
      else ([], [shared]) := by
  unfold PrepareNotifications
  rw [h]
  simp only [Heap.alloc, Option.getD_some, List.nil_append, List.length_nil]
  by_cases hto : rcpt.To.length > 0
  · rw [if_pos hto, if_pos hto]
    rcases hg : deps.GetAll (collectTo rcpt.To).1 with ⟨devices, count, err⟩
    cases err with
    | none => rfl
    | some e => rfl
  · rw [if_neg hto, if_neg hto]
    simp only
    split_ifs <;> rfl

theorem PrepareNotifications_cases {C T M : Type} (deps : Deps C T M) (rcpt : Receipt C T M)
    (shared : StrMap) (h : payloadToData deps (some rcpt.Payload) = (some shared, none)) :
    PrepareNotifications deps rcpt = ([], [shared]) ∨
    ∃ devices count, deps.GetAll (rcpt.To.map Prod.fst) = (devices, count, none) ∧
      0 < rcpt.To.length ∧ ¬ (count = 0 ∧ rcpt.Channel = []) ∧
      PrepareNotifications deps rcpt =
        ((devices.foldl (userStep rcpt.To (collectTo rcpt.To).2 0) ([shared], [])).2,
          (devices.foldl (userStep rcpt.To (collectTo rcpt.To).2 0) ([shared], [])).1) := by
  rw [PrepareNotifications_of_ok deps rcpt shared h, collectTo_uids]
  by_cases hto : rcpt.To.length > 0
  · rw [if_pos hto]
    rcases hg : deps.GetAll (rcpt.To.map Prod.fst) with ⟨devices, count, err⟩
    cases err with
    | some e => exact Or.inl rfl
    | none =>
      simp only
      by_cases hc : count = 0 ∧ rcpt.Channel = []
      · rw [if_pos hc]; exact Or.inl rfl
      · rw [if_neg hc]; exact Or.inr ⟨devices, count, rfl, hto, hc, rfl⟩
  · rw [if_neg hto]; exact Or.inl rfl

theorem mem_foldl_userStep (rcptTo : List (Nat × Recipient)) (skipDevices : List GoString)
    (data : MapRef) (devices : List (Nat × List DeviceDef)) (h : Heap) (m : MessageData)
    (hm : m ∈ (devices.foldl (userStep rcptTo skipDevices data) (h, [])).2) :
    ∃ e ∈ devices, ∃ d ∈ e.2, eligible skipDevices d = true ∧
      m.strip = mkMessage rcptTo e.1 0 d := by
  have hs : m.strip ∈ ((devices.foldl (userStep rcptTo skipDevices data) (h, [])).2).map
      MessageData.strip := List.mem_map_of_mem _ hm
  rw [foldl_userStep_strip] at hs
  simp only [List.map_nil, List.nil_append, List.mem_flatMap, List.mem_map,
    List.mem_filter] at hs
  obtain ⟨e, he, d, ⟨hd, hel⟩, hmk⟩ := hs
  exact ⟨e, he, d, hd, hel, hmk.symm⟩

/-- C7: no prepared message has an empty device identity, and none has a
device identity that some user of `To` lists as delivered live, whichever
user the device is registered under. -/
theorem PrepareNotifications_skips {C T M : Type} (deps : Deps C T M) (rcpt : Receipt C T M)
    (m : MessageData) (hm : m ∈ (PrepareNotifications deps rcpt).1) :
    m.DeviceId ≠ [] ∧ ∀ u r, (u, r) ∈ rcpt.To → m.DeviceId ∉ r.Devices := by
  rcases payloadToData_result deps rcpt.Payload with herr | ⟨shared, hp, _⟩
  · rw [PrepareNotifications_of_error deps rcpt herr] at hm
    simp at hm
  · rcases PrepareNotifications_cases deps rcpt shared hp with h0 | ⟨devices, count, _, _, _, h1⟩
    · rw [h0] at hm; simp at hm
    · rw [h1] at hm
      obtain ⟨e, _, d, _, hel, hmk⟩ := mem_foldl_userStep _ _ _ _ _ _ hm
      have hid : m.DeviceId = d.DeviceId := by
        have : m.strip.DeviceId = (mkMessage rcpt.To e.1 0 d).DeviceId := by rw [hmk]
        exact this
      simp only [eligible, decide_eq_true_eq] at hel
      rw [hid]
      refine ⟨hel.2, fun u r hur hmem => hel.1 ?_⟩
      rw [mem_collectTo_skip, mem_skipSet]
      exact ⟨u, r, hur, hmem⟩

/-- Witness for C7: in the scenario receipt `ios-1` is listed under user 1 and
registered under user 2; the one prepared message is for `ios-2`. -/
theorem PrepareNotifications_skips_witness :
    sampleTarget ∈ (PrepareNotifications sampleDeps sampleRcpt).1 ∧
    (sampleTarget.DeviceId ≠ [] ∧
      ∀ u r, (u, r) ∈ sampleRcpt.To → sampleTarget.DeviceId ∉ r.Devices) :=
  ⟨by decide, PrepareNotifications_skips sampleDeps sampleRcpt sampleTarget (by decide)⟩

theorem lookupTo_of_not_mem (rcptTo : List (Nat × Recipient)) (uid : Nat)
    (h : ∀ r, (uid, r) ∉ rcptTo) : lookupTo rcptTo uid = ⟨0, [], 0⟩ := by
  induction rcptTo with
  | nil => rfl
  | cons e rest ih =>
    obtain ⟨u, r⟩ := e
    unfold lookupTo
    split_ifs with hu
    · subst hu
      exact absurd (List.mem_cons_self _ _) (h r)
    · exact ih (fun r2 hr2 => h r2 (List.mem_cons_of_mem _ hr2))

/-- C8: with `shared` the normalised attributes of the receipt's payload,
every message prepared for a user with `Delivered > 0` carries `silent` =
"true" and otherwise the attributes of `shared`; every message for a user
with `Delivered` not positive, or with no `To` entry, carries exactly
`shared`, whatever happened for the other users of the receipt. -/
theorem PrepareNotifications_silencing {C T M : Type} (deps : Deps C T M)
    (rcpt : Receipt C T M) (shared : StrMap)
    (h : payloadToData deps (some rcpt.Payload) = (some shared, none))
    (m : MessageData) (hm : m ∈ (PrepareNotifications deps rcpt).1) :
    ((lookupTo rcpt.To m.Uid).Delivered > 0 →
      (m.data (PrepareNotifications deps rcpt).2).get "silent" = some (goStr "true") ∧
      ∀ k, k ≠ "silent" →
        (m.data (PrepareNotifications deps rcpt).2).get k = shared.get k) ∧
    ((lookupTo rcpt.To m.Uid).Delivered ≤ 0 →
      m.data (PrepareNotifications deps rcpt).2 = shared) ∧
    ((∀ r, (m.Uid, r) ∉ rcpt.To) →
      m.data (PrepareNotifications deps rcpt).2 = shared) := by
  have hnd : shared.keys.Nodup := by
    rcases payloadToData_result deps rcpt.Payload with herr | ⟨d, hd, hn⟩
    · rw [h] at herr; exact absurd rfl herr
    · rw [h] at hd
      simp only [Prod.mk.injEq, Option.some.injEq, and_true] at hd
      rw [hd]; exact hn
  rcases PrepareNotifications_cases deps rcpt shared h with h0 | ⟨devices, count, _, _, _, h1⟩
  · rw [h0] at hm; simp at hm
  · rw [h1] at hm ⊢
    obtain ⟨hsh, hgood⟩ := foldl_userStep_inv rcpt.To (collectTo rcpt.To).2 0 shared devices
      [shared] [] (by simp) rfl (by simp)
    have hg := hgood m hm
    unfold goodMessage at hg
    have hle : (lookupTo rcpt.To m.Uid).Delivered ≤ 0 →
        m.data (devices.foldl (userStep rcpt.To (collectTo rcpt.To).2 0) ([shared], [])).1
          = shared := by
      intro hd
      have hg2 := hg.2
      rw [if_neg (by omega)] at hg2
      unfold MessageData.data
      rw [hg2]
      exact hsh
    refine ⟨?_, hle, ?_⟩
    · intro hd
      have hg2 := hg.2
      rw [if_pos hd] at hg2
      unfold MessageData.data
      simp only
      rw [hg2]
      refine ⟨by rw [StrMap.get_set, if_pos rfl], fun k hk => ?_⟩
      rw [StrMap.get_set, if_neg (fun hh => hk hh.symm), cloneMap_get _ hnd]
    · intro habs
      apply hle
      rw [lookupTo_of_not_mem _ _ habs]

/-- Witness for C8: user 1 of `twoUserRcpt` is silenced, and the message
prepared afterwards for user 2 still carries the shared attributes. -/
theorem PrepareNotifications_silencing_witness :
    payloadToData twoUserDeps (some twoUserRcpt.Payload) =
      (some ((payloadToData twoUserDeps (some twoUserRcpt.Payload)).1.getD []), none) ∧
    twoUserTarget ∈ (PrepareNotifications twoUserDeps twoUserRcpt).1 ∧
    (lookupTo twoUserRcpt.To twoUserTarget.Uid).Delivered ≤ 0 ∧
    twoUserTarget.data (PrepareNotifications twoUserDeps twoUserRcpt).2 =
      (payloadToData twoUserDeps (some twoUserRcpt.Payload)).1.getD [] :=
  ⟨by decide, by decide, by decide,
    (PrepareNotifications_silencing twoUserDeps twoUserRcpt _ (by decide) twoUserTarget
      (by decide)).2.1 (by decide)⟩

theorem filter_uid_flatMap_of_not_mem (F : Nat × List DeviceDef → List MessageData)
    (hF : ∀ e, ∀ m ∈ F e, m.Uid = e.1) (u : Nat) (devices : List (Nat × List DeviceDef))
    (hu : u ∉ devices.map Prod.fst) :
    (devices.flatMap F).filter (fun m => decide (m.Uid = u)) = [] := by
  rw [List.filter_eq_nil_iff]
  intro m hm
  rw [List.mem_flatMap] at hm
  obtain ⟨e, he, hme⟩ := hm
  have := hF e m hme
  simp only [decide_eq_true_eq]
  intro hmu
  exact hu (List.mem_map.2 ⟨e, he, by rw [← this, hmu]⟩)

theorem filter_uid_flatMap (F : Nat × List DeviceDef → List MessageData)
    (hF : ∀ e, ∀ m ∈ F e, m.Uid = e.1) (u : Nat) (devList : List DeviceDef)
    (devices : List (Nat × List DeviceDef)) (hnd : (devices.map Prod.fst).Nodup)
    (hmem : (u, devList) ∈ devices) :
    (devices.flatMap F).filter (fun m => decide (m.Uid = u)) = F (u, devList) := by
  induction devices with
  | nil => simp at hmem
  | cons e rest ih =>
    simp only [List.map_cons, List.nodup_cons] at hnd
    rw [List.flatMap_cons, List.filter_append]
    rcases List.mem_cons.1 hmem with heq | hrest
    · subst heq
      rw [filter_uid_flatMap_of_not_mem F hF u rest hnd.1, List.append_nil,
        List.filter_eq_self]
      intro m hm
      simp [hF _ m hm]
    · have hne : e.1 ≠ u := by
        intro he
        apply hnd.1
        rw [he]
        exact List.mem_map.2 ⟨(u, devList), hrest, rfl⟩
      have h1 : (F e).filter (fun m => decide (m.Uid = u)) = [] := by
        rw [List.filter_eq_nil_iff]
        intro m hm
        simp only [decide_eq_true_eq]
        rw [hF e m hm]
        exact hne
      rw [h1, List.nil_append, ih hnd.2 hrest]

/-- C9: when normalisation and the registry lookup succeed with a non-zero
count, the messages prepared for a user `u` of the registry result are, in
device-list order, one per occurrence of a device in `u`'s list whose
identity is non-empty and outside the skip-set, each addressed to that device
alone; and every prepared message belongs to a user of the registry result. -/
theorem PrepareNotifications_targets {C T M : Type} (deps : Deps C T M)
    (rcpt : Receipt C T M) (shared : StrMap) (devices : List (Nat × List DeviceDef))
    (count : Int) (h : payloadToData deps (some rcpt.Payload) = (some shared, none))
    (hto : 0 < rcpt.To.length)
    (hg : deps.GetAll (rcpt.To.map Prod.fst) = (devices, count, none)) (hc : count ≠ 0)
    (hnd : (devices.map Prod.fst).Nodup) :
    (∀ u devList, (u, devList) ∈ devices →
      (((PrepareNotifications deps rcpt).1.filter (fun m => decide (m.Uid = u))).map
          (fun m => (m.DeviceId, m.Message.To)) =
        (devList.filter (fun d => decide (d.DeviceId ≠ [] ∧ d.DeviceId ∉ skipSet rcpt.To))).map
          (fun d => (d.DeviceId, [d.DeviceId])))) ∧
    (∀ m ∈ (PrepareNotifications deps rcpt).1, ∃ devList, (m.Uid, devList) ∈ devices) := by
  have hpn : PrepareNotifications deps rcpt =
      ((devices.foldl (userStep rcpt.To (collectTo rcpt.To).2 0) ([shared], [])).2,
        (devices.foldl (userStep rcpt.To (collectTo rcpt.To).2 0) ([shared], [])).1) := by
    rw [PrepareNotifications_of_ok deps rcpt shared h, if_pos hto, collectTo_uids, hg]
    simp only
    rw [if_neg (fun hh => hc hh.1)]
  rw [hpn]
  simp only
  constructor
  · intro u devList hmem
    have hstrip := foldl_userStep_strip rcpt.To (collectTo rcpt.To).2 0 devices [shared] []
    simp only [List.map_nil, List.nil_append] at hstrip
    have h1 : ((devices.foldl (userStep rcpt.To (collectTo rcpt.To).2 0) ([shared], [])).2.filter
          (fun m => decide (m.Uid = u))).map (fun m => (m.DeviceId, m.Message.To)) =
        ((((devices.foldl (userStep rcpt.To (collectTo rcpt.To).2 0) ([shared], [])).2.map
          MessageData.strip).filter (fun m => decide (m.Uid = u))).map
            (fun m => (m.DeviceId, m.Message.To))) := by
      rw [List.filter_map, List.map_map]
      rfl
    rw [h1, hstrip, filter_uid_flatMap _ _ u devList devices hnd hmem, List.map_map]
    · have hf : (fun d => eligible (collectTo rcpt.To).2 d) =
          (fun d : DeviceDef => decide (d.DeviceId ≠ [] ∧ d.DeviceId ∉ skipSet rcpt.To)) := by
        funext d
        simp only [eligible, mem_collectTo_skip, and_comm]
      show (List.filter (fun d => eligible (collectTo rcpt.To).2 d) devList).map _ = _
      rw [hf]
      rfl
    · intro e m hm
      rw [List.mem_map] at hm
      obtain ⟨d, _, rfl⟩ := hm
      rfl
  · intro m hm
    obtain ⟨e, he, d, _, _, hmk⟩ := mem_foldl_userStep _ _ _ _ _ _ hm
    have hid : m.Uid = e.1 := by
      have : m.strip.Uid = (mkMessage rcpt.To e.1 0 d).Uid := by rw [hmk]
      exact this
    exact ⟨e.2, by rw [hid]; exact he⟩

/-- Witness for C9, the spec's scenario: two users in `To`, user 1 delivered
live on `ios-1`, target user 2 with registered devices `ios-1`, `ios-2`:
exactly one message, for `ios-2`, with `silent` absent. -/
theorem PrepareNotifications_targets_witness :
    (∀ u devList, (u, devList) ∈ (sampleDeps.GetAll (sampleRcpt.To.map Prod.fst)).1 →
      (((PrepareNotifications sampleDeps sampleRcpt).1.filter (fun m => decide (m.Uid = u))).map
          (fun m => (m.DeviceId, m.Message.To)) =
        (devList.filter
            (fun d => decide (d.DeviceId ≠ [] ∧ d.DeviceId ∉ skipSet sampleRcpt.To))).map
          (fun d => (d.DeviceId, [d.DeviceId])))) ∧
    (PrepareNotifications sampleDeps sampleRcpt).1.map
        (fun m => (m.Uid, m.DeviceId, m.Message.To)) =
      [(2, goStr "ios-2", [goStr "ios-2"])] ∧
    ((PrepareNotifications sampleDeps sampleRcpt).1.map
        (fun m => (m.data (PrepareNotifications sampleDeps sampleRcpt).2).get "silent")) =
      [none] :=
  ⟨(PrepareNotifications_targets sampleDeps sampleRcpt
      ((payloadToData sampleDeps (some sampleRcpt.Payload)).1.getD []) _ 2 (by decide)
      (by decide) rfl (by decide) (by decide)).1,
    by decide, by decide⟩

/-! ## sendNotifications -/

theorem scanResponses_false (gw : Gateway) (resp : List PushResponse)
    (h : ∀ r ∈ resp, gw.ValidateResponse r ≠ none →
      r.Details.index "error" ≠ gw.ErrorMessageRateExceeded) :
    scanResponses gw resp = false := by
  induction resp with
  | nil => rfl
  | cons r rest ih =>
    have hrest := ih (fun x hx => h x (List.mem_cons_of_mem _ hx))
    have hr := h r (List.mem_cons_self _ _)
    unfold scanResponses
    cases hv : gw.ValidateResponse r with
    | none => simpa using hrest
    | some e =>
      simp only
      rw [if_neg (hr (by rw [hv]; simp))]
      exact hrest

/-- The slice the batch loop builds at index `i` is the whole batch there. -/
theorem batch_slice_eq (messages : List MessageData) (j : Nat)
    (hi : 100 * j < messages.length) :
    (((messages.drop (100 * j)).take
        ((if 100 * j + pushBatchSize > messages.length then messages.length
          else 100 * j + pushBatchSize) - 100 * j)).map MessageData.Message) =
      batchAt messages j := by
  unfold batchAt
  simp only [pushBatchSize]
  rw [List.map_take, List.map_drop]
  split_ifs with h
  · have hl : ((messages.map MessageData.Message).drop (100 * j)).length
        = messages.length - 100 * j := by simp
    rw [List.take_of_length_le (by rw [hl]), List.take_of_length_le (by rw [hl]; omega)]
  · congr 1
    omega

theorem length_batchAt (messages : List MessageData) (j : Nat) :
    (batchAt messages j).length = min 100 (messages.length - 100 * j) := by
  simp [batchAt, pushBatchSize]

theorem join_batches (messages : List MessageData) (n : Nat) :
    ((List.range n).map (batchAt messages)).flatten =
      (messages.map MessageData.Message).take (100 * n) := by
  induction n with
  | zero => simp
  | succ n ih =>
    rw [List.range_succ, List.map_append, List.flatten_append, ih]
    simp only [List.map_cons, List.map_nil, List.flatten_cons, List.flatten_nil,
      List.append_nil, batchAt, pushBatchSize]
    rw [show 100 * (n + 1) = 100 * n + 100 by omega, List.take_add]

/-- The batch loop returns (the fuel is enough), and what it has handed to the
gateway is always an initial run of whole batches; without an abort it is all
of them. -/
theorem sendLoop_spec (gw : Gateway) (messages : List MessageData) (fuel : Nat) :
    ∀ (calls : List (List PushMessage)),
      messages.length ≤ 100 * calls.length + 100 * fuel →
      calls = (List.range calls.length).map (batchAt messages) →
      100 * calls.length < messages.length + 100 →
      ∃ out, sendLoop gw messages fuel (100 * calls.length) calls = some out ∧
        out = (List.range out.length).map (batchAt messages) ∧
        100 * out.length < messages.length + 100 ∧
        calls.length ≤ out.length ∧
        (100 * calls.length < messages.length → calls.length < out.length) ∧
        ((∀ k b, (gw.PublishMultiple k b).2 = none ∧
            ∀ r ∈ (gw.PublishMultiple k b).1, gw.ValidateResponse r ≠ none →
              r.Details.index "error" ≠ gw.ErrorMessageRateExceeded) →
          messages.length ≤ 100 * out.length) := by
  induction fuel with
  | zero =>
    intro calls hfuel hcalls hlt
    refine ⟨calls, ?_, hcalls, hlt, le_refl _, fun _ => by omega, fun _ => by omega⟩
    unfold sendLoop
    rw [if_neg (by omega)]
  | succ f ih =>
    intro calls hfuel hcalls hlt
    unfold sendLoop
    by_cases hi : 100 * calls.length < messages.length
    · rw [if_pos hi]
      simp only
      rw [batch_slice_eq messages calls.length hi]
      have hcalls2 : calls ++ [batchAt messages calls.length] =
          (List.range (calls ++ [batchAt messages calls.length]).length).map
            (batchAt messages) := by
        rw [List.length_append, List.length_singleton, List.range_succ, List.map_append,
          ← hcalls]
        rfl
      have hlen2 : (calls ++ [batchAt messages calls.length]).length = calls.length + 1 := by
        simp
      cases herr : (gw.PublishMultiple calls.length (batchAt messages calls.length)).2 with
      | some e =>
        refine ⟨_, rfl, hcalls2, by rw [hlen2]; omega, by rw [hlen2]; omega,
          fun _ => by rw [hlen2]; omega, fun hok => ?_⟩
        have := (hok calls.length (batchAt messages calls.length)).1
        rw [herr] at this
        simp at this
      | none =>
        simp only
        cases hscan : scanResponses gw
            (gw.PublishMultiple calls.length (batchAt messages calls.length)).1 with
        | true =>
          simp only [if_true]
          refine ⟨_, rfl, hcalls2, by rw [hlen2]; omega, by rw [hlen2]; omega,
            fun _ => by rw [hlen2]; omega, fun hok => ?_⟩
          have := scanResponses_false gw _ (hok calls.length (batchAt messages calls.length)).2
          rw [hscan] at this
          simp at this
        | false =>
          simp only [Bool.false_eq_true, if_false]
          have hidx : 100 * calls.length + pushBatchSize =
              100 * (calls ++ [batchAt messages calls.length]).length := by
            rw [hlen2]; simp only [pushBatchSize]; omega
          rw [hidx]
          obtain ⟨out, ho1, ho2, ho3, ho4, _, ho5⟩ :=
            ih (calls ++ [batchAt messages calls.length])
              (by rw [hlen2]; omega) hcalls2 (by rw [hlen2]; omega)
          rw [hlen2] at ho4
          exact ⟨out, ho1, ho2, ho3, by omega, fun _ => by omega, ho5⟩
    · rw [if_neg hi]
      exact ⟨calls, rfl, hcalls, hlt, le_refl _, fun h => absurd h hi, fun _ => by omega⟩

/-- C10: for a non-empty list of prepared messages sendNotifications returns,
and its PublishMultiple calls are, in call order, an initial run of the whole
batches of the list: each has between 1 and 100 messages, all but the last
issued have exactly 100, and together they are a prefix of the list (so also
under an abort).  When the gateway returns no transport error and no
rate-limit response there are exactly ceil(N/100) calls and together they are
the whole list in its original order. -/
theorem sendMessages_batches (gw : Gateway) (messages : List MessageData)
    (hN : 0 < messages.length) :
    ∃ calls, sendMessages gw messages = some calls ∧
      calls = (List.range calls.length).map
        (fun j => ((messages.map MessageData.Message).drop (100 * j)).take 100) ∧
      1 ≤ calls.length ∧ calls.length ≤ (messages.length + 99) / 100 ∧
      (∀ b ∈ calls, 1 ≤ b.length ∧ b.length ≤ 100) ∧
      (∀ j b, j + 1 < calls.length → calls[j]? = some b → b.length = 100) ∧
      calls.flatten = (messages.map MessageData.Message).take (100 * calls.length) ∧
      ((∀ k b, (gw.PublishMultiple k b).2 = none ∧
          ∀ r ∈ (gw.PublishMultiple k b).1, gw.ValidateResponse r ≠ none →
            r.Details.index "error" ≠ gw.ErrorMessageRateExceeded) →
        calls.length = (messages.length + 99) / 100 ∧
        calls.flatten = messages.map MessageData.Message) := by
  obtain ⟨out, ho1, ho2, ho3, _, ho4, ho5⟩ := sendLoop_spec gw messages messages.length []
    (by simp only [List.length_nil]; omega) rfl (by simp only [List.length_nil]; omega)
  have hpos : 1 ≤ out.length := by
    have := ho4 (by simp only [List.length_nil]; omega)
    simp only [List.length_nil] at this
    omega
  have hflat := join_batches messages out.length
  rw [← ho2] at hflat
  have hmem : ∀ b ∈ out, 1 ≤ b.length ∧ b.length ≤ 100 := by
    intro b hb
    rw [ho2, List.mem_map] at hb
    obtain ⟨j, hj, rfl⟩ := hb
    rw [List.mem_range] at hj
    rw [length_batchAt]
    omega
  refine ⟨out, ?_, ho2, hpos, by omega, hmem, ?_, hflat, ?_⟩
  · unfold sendMessages
    rw [if_neg (by omega)]
    exact ho1
  · intro j b hj hb
    have hjl : j < out.length := by omega
    rw [ho2, List.getElem?_map, List.getElem?_range hjl] at hb
    simp only [Option.map_some', Option.some.injEq] at hb
    rw [← hb, length_batchAt]
    omega
  · intro hok
    have hle := ho5 hok
    refine ⟨by omega, ?_⟩
    rw [hflat, List.take_of_length_le (by simp only [List.length_map]; omega)]

/-- Witness for C10: 250 messages and a gateway that accepts everything give
three calls, which together are the 250 messages in order. -/
theorem sendMessages_batches_witness :
    0 < manyMessages.length ∧
    ∃ calls, sendMessages okGateway manyMessages = some calls ∧
      calls.length = 3 ∧ (∀ b ∈ calls, 1 ≤ b.length ∧ b.length ≤ 100) ∧
      calls.flatten = manyMessages.map MessageData.Message := by
  have hlen : manyMessages.length = 250 := List.length_replicate 250 sampleTarget
  obtain ⟨calls, h1, _, _, _, h5, _, _, h8⟩ :=
    sendMessages_batches okGateway manyMessages (by rw [hlen]; decide)
  obtain ⟨h9, h10⟩ := h8 (fun k b => ⟨rfl, fun r hr => absurd hr (List.not_mem_nil r)⟩)
  rw [hlen] at h9
  exact ⟨by rw [hlen]; decide, calls, h1, h9, h5, h10⟩

/-! ## Aborting the dispatch -/

theorem scanTrace_flag (gw : Gateway) (resp : List PushResponse) :
    (scanTrace gw resp).2 = scanResponses gw resp := by
  induction resp with
  | nil => rfl
  | cons r rest ih =>
    unfold scanTrace scanResponses
    cases gw.ValidateResponse r with
    | none => simpa using ih
    | some e =>
      simp only
      split_ifs
      · rfl
      · exact ih

/-- Where the batch loop stops: every call before the last one issued went
through without abort, and the loop ends either at the end of the list or
right after a call that aborts. -/
theorem sendLoop_stops (gw : Gateway) (messages : List MessageData) (fuel : Nat) :
    ∀ (calls out : List (List PushMessage)),
      sendLoop gw messages fuel (100 * calls.length) calls = some out →
      calls.length ≤ out.length ∧
      (∀ j, calls.length ≤ j → j + 1 < out.length → aborts gw messages j = false) ∧
      (messages.length ≤ 100 * out.length ∨
        (calls.length < out.length ∧ aborts gw messages (out.length - 1) = true)) := by
  induction fuel with
  | zero =>
    intro calls out h
    unfold sendLoop at h
    split_ifs at h with hi
    simp only [Option.some.injEq] at h
    subst h
    exact ⟨le_refl _, fun j h1 h2 => by omega, Or.inl (by omega)⟩
  | succ f ih =>
    intro calls out h
    unfold sendLoop at h
    by_cases hi : 100 * calls.length < messages.length
    · rw [if_pos hi] at h
      simp only at h
      rw [batch_slice_eq messages calls.length hi] at h
      have hlen2 : (calls ++ [batchAt messages calls.length]).length = calls.length + 1 := by
        simp
      cases herr : (gw.PublishMultiple calls.length (batchAt messages calls.length)).2 with
      | some e =>
        rw [herr] at h
        simp only [Option.some.injEq] at h
        subst h
        rw [hlen2]
        refine ⟨by omega, fun j h1 h2 => by omega, Or.inr ⟨by omega, ?_⟩⟩
        simp [aborts, herr]
      | none =>
        rw [herr] at h
        simp only at h
        cases hscan : scanResponses gw
            (gw.PublishMultiple calls.length (batchAt messages calls.length)).1 with
        | true =>
          rw [hscan] at h
          simp only [if_true, Option.some.injEq] at h
          subst h
          rw [hlen2]
          refine ⟨by omega, fun j h1 h2 => by omega, Or.inr ⟨by omega, ?_⟩⟩
          simp [aborts, hscan]
        | false =>
          rw [hscan] at h
          simp only [Bool.false_eq_true, if_false] at h
          have hidx : 100 * calls.length + pushBatchSize =
              100 * (calls ++ [batchAt messages calls.length]).length := by
            rw [hlen2]; simp only [pushBatchSize]; omega
          rw [hidx] at h
          obtain ⟨h1, h2, h3⟩ := ih _ _ h
          rw [hlen2] at h1 h2 h3
          refine ⟨by omega, ?_, ?_⟩
          · intro j hj1 hj2
            rcases Nat.eq_or_lt_of_le hj1 with heq | hlt
            · subst heq
              simp [aborts, herr, hscan]
            · exact h2 j (by omega) hj2
          · rcases h3 with h3 | ⟨h3, h4⟩
            · exact Or.inl h3
            · exact Or.inr ⟨by omega, h4⟩
    · rw [if_neg hi] at h
      simp only [Option.some.injEq] at h
      subst h
      exact ⟨le_refl _, fun j h1 h2 => by omega, Or.inl (by omega)⟩

theorem sendLoop_of_empty (gw : Gateway) (fuel i : Nat) (calls : List (List PushMessage)) :
    sendLoop gw [] fuel i calls = some calls := by
  cases fuel <;> simp [sendLoop]

/-- Summary of the dispatch of a non-empty list: the calls are the first
`calls.length` whole batches, none but the last aborts, and the last one
aborts unless the list is exhausted. -/
theorem sendMessages_shape (gw : Gateway) (messages : List MessageData)
    (hN : 0 < messages.length) :
    ∃ calls, sendMessages gw messages = some calls ∧
      sendLoop gw messages messages.length (100 * ([] : List (List PushMessage)).length) []
        = some calls ∧
      calls = (List.range calls.length).map (batchAt messages) ∧
      1 ≤ calls.length ∧ 100 * calls.length < messages.length + 100 ∧
      (∀ j, j + 1 < calls.length → aborts gw messages j = false) ∧
      (messages.length ≤ 100 * calls.length ∨
        aborts gw messages (calls.length - 1) = true) := by
  obtain ⟨out, ho1, ho2, ho3, _, ho4, _⟩ := sendLoop_spec gw messages messages.length []
    (by simp only [List.length_nil]; omega) rfl (by simp only [List.length_nil]; omega)
  obtain ⟨_, hs2, hs3⟩ := sendLoop_stops gw messages messages.length [] out ho1
  have hpos : 1 ≤ out.length := by
    have := ho4 (by simp only [List.length_nil]; omega)
    simp only [List.length_nil] at this
    omega
  refine ⟨out, ?_, ho1, ho2, hpos, ho3, fun j hj => hs2 j (by simp) hj, ?_⟩
  · unfold sendMessages
    rw [if_neg (by omega)]
    exact ho1
  · rcases hs3 with h | ⟨_, h⟩
    · exact Or.inl h
    · exact Or.inr h

theorem publishes_append (a b : List GatewayEvent) :
    publishes (a ++ b) = publishes a ++ publishes b := by
  induction a with
  | nil => rfl
  | cons e rest ih =>
    cases e with
    | publish x => simp [publishes, ih]
    | validate r => simp [publishes, ih]

theorem publishes_scanTrace (gw : Gateway) (resp : List PushResponse) :
    publishes (scanTrace gw resp).1 = [] := by
  induction resp with
  | nil => rfl
  | cons r rest ih =>
    unfold scanTrace
    cases gw.ValidateResponse r with
    | none => simpa [publishes] using ih
    | some e =>
      simp only
      split_ifs
      · rfl
      · simpa [publishes] using ih

theorem publishes_callEvents (gw : Gateway) (messages : List MessageData) (j : Nat) :
    publishes (callEvents gw messages j) = [batchAt messages j] := by
  unfold callEvents
  split_ifs
  · rfl
  · simp [publishes, publishes_scanTrace]

theorem publishes_flatMap_callEvents (gw : Gateway) (messages : List MessageData)
    (js : List Nat) :
    publishes (js.flatMap (callEvents gw messages)) = js.map (batchAt messages) := by
  induction js with
  | nil => rfl
  | cons j rest ih =>
    rw [List.flatMap_cons, publishes_append, publishes_callEvents, ih]
    rfl

/-- The traced loop makes the calls of `sendLoop`, and its events are those
of the calls it adds, one call after the other. -/
theorem sendLoopTrace_eq (gw : Gateway) (messages : List MessageData) (fuel : Nat) :
    ∀ (calls out : List (List PushMessage)) (ev : List GatewayEvent),
      sendLoop gw messages fuel (100 * calls.length) calls = some out →
      sendLoopTrace gw messages fuel (100 * calls.length) (calls, ev) =
        some (out, ev ++ (List.range' calls.length (out.length - calls.length)).flatMap
          (callEvents gw messages)) := by
  induction fuel with
  | zero =>
    intro calls out ev h
    unfold sendLoop at h
    unfold sendLoopTrace
    split_ifs at h with hi
    simp only [Option.some.injEq] at h
    subst h
    rw [if_neg hi]
    simp
  | succ f ih =>
    intro calls out ev h
    unfold sendLoop at h
    unfold sendLoopTrace
    by_cases hi : 100 * calls.length < messages.length
    · rw [if_pos hi] at h ⊢
      simp only at h ⊢
      rw [batch_slice_eq messages calls.length hi] at h ⊢
      have hlen2 : (calls ++ [batchAt messages calls.length]).length = calls.length + 1 := by
        simp
      cases herr : (gw.PublishMultiple calls.length (batchAt messages calls.length)).2 with
      | some e =>
        rw [herr] at h
        simp only [Option.some.injEq] at h
        subst h
        simp only [hlen2, Nat.add_sub_cancel_left, List.range'_one, List.flatMap_cons,
          List.flatMap_nil, List.append_nil, callEvents, herr, Option.isSome_some, if_true]
      | none =>
        rw [herr] at h
        simp only at h ⊢
        rw [scanTrace_flag]
        cases hscan : scanResponses gw
            (gw.PublishMultiple calls.length (batchAt messages calls.length)).1 with
        | true =>
          rw [hscan] at h
          simp only [if_true, Option.some.injEq] at h
          subst h
          simp only [hlen2, Nat.add_sub_cancel_left, List.range'_one, List.flatMap_cons,
            List.flatMap_nil, List.append_nil, callEvents, herr, Option.isSome_none,
            Bool.false_eq_true, if_false, if_true, List.append_assoc, List.singleton_append]
        | false =>
          rw [hscan] at h
          simp only [Bool.false_eq_true, if_false] at h ⊢
          have hidx : 100 * calls.length + pushBatchSize =
              100 * (calls ++ [batchAt messages calls.length]).length := by
            rw [hlen2]; simp only [pushBatchSize]; omega
          rw [hidx] at h ⊢
          have hle := (sendLoop_stops gw messages f _ _ h).1
          rw [hlen2] at hle
          rw [ih _ _ _ h, hlen2]
          have hr : List.range' calls.length (out.length - calls.length) =
              calls.length :: List.range' (calls.length + 1) (out.length - (calls.length + 1)) := by
            rw [show out.length - calls.length = (out.length - (calls.length + 1)) + 1 by omega,
              List.range'_succ]
          rw [hr, List.flatMap_cons]
          simp only [callEvents, herr, Option.isSome_none, Bool.false_eq_true, if_false,
            List.append_assoc, List.singleton_append, List.cons_append, List.nil_append]
    · rw [if_neg hi] at h ⊢
      simp only [Option.some.injEq] at h
      subst h
      simp

/-- The traced dispatch makes the calls of `sendMessages`; its events are the
events of these calls in order. -/
theorem sendMessagesTrace_eq (gw : Gateway) (messages : List MessageData)
    (calls : List (List PushMessage)) (h : sendMessages gw messages = some calls) :
    sendMessagesTrace gw messages =
      some (calls, (List.range calls.length).flatMap (callEvents gw messages)) := by
  unfold sendMessages at h
  unfold sendMessagesTrace
  split_ifs at h ⊢ with h0
  · simp only [Option.some.injEq] at h
    subst h
    rfl
  · have := sendLoopTrace_eq gw messages messages.length [] calls [] h
    simp only [List.length_nil, Nat.mul_zero, List.nil_append, Nat.sub_zero] at this
    rw [this, List.range_eq_range']

/-- For every list and gateway the dispatch returns, with the shape of
`sendMessages_shape` (trivially so for the empty list). -/
theorem sendMessages_result (gw : Gateway) (messages : List MessageData) :
    ∃ calls, sendMessages gw messages = some calls ∧
      calls = (List.range calls.length).map (batchAt messages) ∧
      (∀ j, j + 1 < calls.length → aborts gw messages j = false) ∧
      (messages.length ≤ 100 * calls.length ∨
        aborts gw messages (calls.length - 1) = true) := by
  rcases Nat.eq_zero_or_pos messages.length with h0 | hN
  · refine ⟨[], ?_, rfl, fun j hj => by simp at hj, Or.inl (by omega)⟩
    unfold sendMessages
    rw [if_pos h0]
  · obtain ⟨calls, h1, _, h2, _, _, h3, h4⟩ := sendMessages_shape gw messages hN
    exact ⟨calls, h1, h2, h3, h4⟩

theorem getElem?_batches (messages : List MessageData) (n k : Nat) (b : List PushMessage)
    (h : ((List.range n).map (batchAt messages))[k]? = some b) :
    k < n ∧ b = batchAt messages k := by
  rw [List.getElem?_map] at h
  rcases Nat.lt_or_ge k n with hk | hk
  · rw [List.getElem?_range hk] at h
    simp only [Option.map_some', Option.some.injEq] at h
    exact ⟨hk, h.symm⟩
  · rw [List.getElem?_eq_none (by simpa using hk)] at h
    simp at h

/-- C11: a transport error is fail-fast.  For every message list and gateway
the dispatch returns; if the `PublishMultiple` call for batch `k` (with its
batch `b`) returned a transport-level error, the calls made are exactly the
batches 0..k, and the last gateway event is that call: no response of
batch `k` is inspected and no further call is made. -/
theorem sendMessages_transport_error (gw : Gateway) (messages : List MessageData) :
    ∃ calls events, sendMessagesTrace gw messages = some (calls, events) ∧
      sendMessages gw messages = some calls ∧ publishes events = calls ∧
      ∀ k b, calls[k]? = some b → (gw.PublishMultiple k b).2 ≠ none →
        calls = (List.range (k + 1)).map
          (fun j => ((messages.map MessageData.Message).drop (100 * j)).take 100) ∧
        events.getLast? = some (GatewayEvent.publish b) := by
  obtain ⟨calls, h1, h2, h3, _⟩ := sendMessages_result gw messages
  refine ⟨calls, _, sendMessagesTrace_eq gw messages calls h1, h1, ?_, ?_⟩
  · rw [publishes_flatMap_callEvents]
    exact h2.symm
  · intro k b hk herr
    rw [h2] at hk
    obtain ⟨hkl, hb⟩ := getElem?_batches messages _ k b hk
    subst hb
    have hab : aborts gw messages k = true := by
      unfold aborts
      cases he : (gw.PublishMultiple k (batchAt messages k)).2 with
      | none => exact absurd he herr
      | some e => rfl
    have hlen : calls.length = k + 1 := by
      rcases Nat.lt_or_ge (k + 1) calls.length with hlt | hge
      · have := h3 k hlt
        rw [hab] at this
        simp at this
      · omega
    refine ⟨?_, ?_⟩
    · rw [h2, hlen]
      rfl
    · rw [hlen, List.range_succ, List.flatMap_append]
      simp only [List.flatMap_cons, List.flatMap_nil, List.append_nil]
      have hce : callEvents gw messages k = [GatewayEvent.publish (batchAt messages k)] := by
        unfold callEvents
        cases he : (gw.PublishMultiple k (batchAt messages k)).2 with
        | none => exact absurd he herr
        | some e => rfl
      rw [hce, List.getLast?_append]
      rfl

/-- Witness for C11: with 250 messages and a gateway whose second call fails
as a whole there are exactly two calls, and the dispatch ends on the second
call without looking at the response it carried. -/
theorem sendMessages_transport_error_witness :
    ∃ calls events, sendMessagesTrace failGateway manyMessages = some (calls, events) ∧
      calls.length = 2 ∧
      events.getLast? = some (GatewayEvent.publish (batchAt manyMessages 1)) := by
  have hlen : manyMessages.length = 250 := List.length_replicate 250 sampleTarget
  obtain ⟨calls, events, ht, hs, _, hmain⟩ :=
    sendMessages_transport_error failGateway manyMessages
  obtain ⟨calls2, hs2, _, hshape, hpos, _, _, hlast⟩ :=
    sendMessages_shape failGateway manyMessages (by rw [hlen]; decide)
  rw [hs] at hs2
  simp only [Option.some.injEq] at hs2
  subst hs2
  have h0 : aborts failGateway manyMessages 0 = false := by
    simp [aborts, failGateway, scanResponses]
  have h2 : 2 ≤ calls.length := by
    rcases Nat.lt_or_ge calls.length 2 with hlt | hge
    · have h1 : calls.length = 1 := by omega
      rw [h1, hlen] at hlast
      rcases hlast with hl | hl
      · omega
      · rw [h0] at hl
        exact absurd hl (by decide)
    · exact hge
  have hk : calls[1]? = some (batchAt manyMessages 1) := by
    rw [hshape, List.getElem?_map, List.getElem?_range (by omega)]
    rfl
  obtain ⟨hc, he⟩ := hmain 1 _ hk (by simp [failGateway])
  refine ⟨calls, events, ht, ?_, he⟩
  rw [hc]
  simp

theorem scanResponses_cons (gw : Gateway) (r : PushResponse) (rest : List PushResponse) :
    scanResponses gw (r :: rest) = (rateLimited gw r || scanResponses gw rest) := by
  unfold rateLimited
  rw [scanResponses]
  cases gw.ValidateResponse r with
  | none => simp
  | some e =>
    simp only [Option.isSome_some, Bool.true_and]
    split_ifs with h
    · simp [h]
    · simp [h]

theorem scanTrace_cons (gw : Gateway) (r : PushResponse) (rest : List PushResponse) :
    (scanTrace gw (r :: rest)).1 =
      GatewayEvent.validate r :: (if rateLimited gw r = true then [] else (scanTrace gw rest).1) := by
  unfold rateLimited
  rw [scanTrace]
  cases gw.ValidateResponse r with
  | none => simp
  | some e =>
    simp only [Option.isSome_some, Bool.true_and, decide_eq_true_eq]
    by_cases h : r.Details.index "error" = gw.ErrorMessageRateExceeded
    · rw [if_pos h, if_pos h]
    · rw [if_neg h, if_neg h]

/-- The response loop stops at the first rate-limit response: it inspects the
responses up to and including that one, and no more. -/
theorem scanTrace_of_rateLimited (gw : Gateway) (resp : List PushResponse)
    (h : ∃ r ∈ resp, rateLimited gw r = true) :
    scanResponses gw resp = true ∧
    ∃ pre r0 post, resp = pre ++ r0 :: post ∧ (∀ r ∈ pre, rateLimited gw r = false) ∧
      rateLimited gw r0 = true ∧
      (scanTrace gw resp).1 = (pre ++ [r0]).map GatewayEvent.validate := by
  induction resp with
  | nil => simp at h
  | cons r rest ih =>
    rw [scanResponses_cons, scanTrace_cons]
    cases hr : rateLimited gw r with
    | true =>
      exact ⟨rfl, [], r, rest, rfl, fun x hx => by simp at hx, hr, by simp⟩
    | false =>
      obtain ⟨x, hx, hxr⟩ := h
      rcases List.mem_cons.1 hx with heq | hmem
      · subst heq
        rw [hr] at hxr
        exact absurd hxr (by decide)
      · obtain ⟨h1, pre, r0, post, h2, h3, h4, h5⟩ := ih ⟨x, hmem, hxr⟩
        refine ⟨by simpa using h1, r :: pre, r0, post, by rw [h2]; rfl, ?_, h4, ?_⟩
        · intro y hy
          rcases List.mem_cons.1 hy with heq | hmem2
          · subst heq; exact hr
          · exact h3 y hmem2
        · simp [h5]

/-- C12: a rate-limit response is fail-fast.  For every message list and
gateway the dispatch returns; if a response to batch `k` (with its batch `b`)
fails validation with the "rate limit exceeded" detail, the calls made are
exactly the batches 0..k, none after `k`; and when that call had no transport
error, the dispatch ends on the first such response, having inspected the
responses before it and none after it. -/
theorem sendMessages_rate_limit (gw : Gateway) (messages : List MessageData) :
    ∃ calls events, sendMessagesTrace gw messages = some (calls, events) ∧
      sendMessages gw messages = some calls ∧ publishes events = calls ∧
      ∀ k b, calls[k]? = some b →
        (∃ r ∈ (gw.PublishMultiple k b).1, gw.ValidateResponse r ≠ none ∧
          r.Details.index "error" = gw.ErrorMessageRateExceeded) →
        calls.length = k + 1 ∧
        calls = (List.range (k + 1)).map
          (fun j => ((messages.map MessageData.Message).drop (100 * j)).take 100) ∧
        ((gw.PublishMultiple k b).2 = none →
          ∃ before pre r0 post, (gw.PublishMultiple k b).1 = pre ++ r0 :: post ∧
            (gw.ValidateResponse r0 ≠ none ∧
              r0.Details.index "error" = gw.ErrorMessageRateExceeded) ∧
            publishes before = (List.range k).map (batchAt messages) ∧
            events = before ++ GatewayEvent.publish b ::
              (pre ++ [r0]).map GatewayEvent.validate) := by
  obtain ⟨calls, h1, h2, h3, _⟩ := sendMessages_result gw messages
  refine ⟨calls, _, sendMessagesTrace_eq gw messages calls h1, h1, ?_, ?_⟩
  · rw [publishes_flatMap_callEvents]
    exact h2.symm
  · intro k b hk hrate
    rw [h2] at hk
    obtain ⟨hkl, hb⟩ := getElem?_batches messages _ k b hk
    subst hb
    have hrl : ∃ r ∈ (gw.PublishMultiple k (batchAt messages k)).1, rateLimited gw r = true := by
      obtain ⟨r, hr, hv, hd⟩ := hrate
      refine ⟨r, hr, ?_⟩
      unfold rateLimited
      cases hvr : gw.ValidateResponse r with
      | none => exact absurd hvr hv
      | some e => simp [hd]
    obtain ⟨hscan, pre, r0, post, hp1, _, hp3, hp4⟩ := scanTrace_of_rateLimited gw _ hrl
    have hab : aborts gw messages k = true := by
      unfold aborts
      rw [hscan]
      simp
    have hlen : calls.length = k + 1 := by
      rcases Nat.lt_or_ge (k + 1) calls.length with hlt | hge
      · have := h3 k hlt
        rw [hab] at this
        simp at this
      · omega
    refine ⟨hlen, ?_, ?_⟩
    · rw [h2, hlen]
      rfl
    · intro herr
      refine ⟨(List.range k).flatMap (callEvents gw messages), pre, r0, post, hp1, ?_,
        publishes_flatMap_callEvents gw messages _, ?_⟩
      · unfold rateLimited at hp3
        simp only [Bool.and_eq_true, Option.isSome_iff_ne_none, decide_eq_true_eq] at hp3
        exact hp3
      · rw [hlen, List.range_succ, List.flatMap_append]
        simp only [List.flatMap_cons, List.flatMap_nil, List.append_nil]
        unfold callEvents
        rw [herr, hp4]
        simp

/-- Witness for C12, the spec's scenario: a rate-limit response on message 3
of a single batch of 5 gives exactly one gateway call, and the dispatch ends
on that third response; with 250 messages the same answer to the first call
leaves the other two batches unsent. -/
theorem sendMessages_rate_limit_witness :
    (∃ calls events, sendMessagesTrace rateGateway fiveMessages = some (calls, events) ∧
      calls.length = 1 ∧
      events = [GatewayEvent.publish (batchAt fiveMessages 0),
        GatewayEvent.validate okResponse, GatewayEvent.validate okResponse,
        GatewayEvent.validate rateResponse]) ∧
    (∃ calls, sendMessages rateGateway manyMessages = some calls ∧ calls.length = 1) := by
  have hrate : ∀ (b : List PushMessage), ∃ r ∈ (rateGateway.PublishMultiple 0 b).1,
      rateGateway.ValidateResponse r ≠ none ∧
        r.Details.index "error" = rateGateway.ErrorMessageRateExceeded :=
    fun _ => ⟨rateResponse, by simp [rateGateway], by decide, by decide⟩
  constructor
  · obtain ⟨calls, events, ht, _, _, hmain⟩ := sendMessages_rate_limit rateGateway fiveMessages
    have hd : sendMessagesTrace rateGateway fiveMessages =
        some ([batchAt fiveMessages 0], [GatewayEvent.publish (batchAt fiveMessages 0),
          GatewayEvent.validate okResponse, GatewayEvent.validate okResponse,
          GatewayEvent.validate rateResponse]) := by rfl
    rw [hd] at ht
    simp only [Option.some.injEq, Prod.mk.injEq] at ht
    obtain ⟨hc, he⟩ := ht
    have hk : calls[0]? = some (batchAt fiveMessages 0) := by rw [← hc]; rfl
    exact ⟨calls, events, by rw [hd, hc, he], (hmain 0 _ hk (hrate _)).1, he.symm⟩
  · obtain ⟨calls, _, _, hs, _, hmain⟩ := sendMessages_rate_limit rateGateway manyMessages
    have hlen : manyMessages.length = 250 := List.length_replicate 250 sampleTarget
    obtain ⟨calls2, hs2, _, hshape, hpos, _, _, _⟩ :=
      sendMessages_shape rateGateway manyMessages (by rw [hlen]; decide)
    rw [hs] at hs2
    simp only [Option.some.injEq] at hs2
    subst hs2
    have hk : calls[0]? = some (batchAt manyMessages 0) := by
      rw [hshape, List.getElem?_map, List.getElem?_range (by omega)]
      rfl
    exact ⟨calls, hs, (hmain 0 _ hk (hrate _)).1⟩

/-! ## Receipts that yield nothing -/

theorem sendMessages_nil (gw : Gateway) : sendMessages gw [] = some [] := rfl

theorem sendMessagesTrace_nil (gw : Gateway) : sendMessagesTrace gw [] = some ([], []) := rfl

/-- Every run of PrepareNotifications either yields no message, or is the
user loop over a registry answer obtained without error. -/
theorem PrepareNotifications_shape {C T M : Type} (deps : Deps C T M)
    (rcpt : Receipt C T M) :
    (PrepareNotifications deps rcpt).1 = [] ∨
    ∃ shared devices count,
      payloadToData deps (some rcpt.Payload) = (some shared, none) ∧
      deps.GetAll (rcpt.To.map Prod.fst) = (devices, count, none) ∧
      0 < rcpt.To.length ∧ ¬ (count = 0 ∧ rcpt.Channel = []) ∧
      PrepareNotifications deps rcpt =
        ((devices.foldl (userStep rcpt.To (collectTo rcpt.To).2 0) ([shared], [])).2,
          (devices.foldl (userStep rcpt.To (collectTo rcpt.To).2 0) ([shared], [])).1) := by
  rcases payloadToData_result deps rcpt.Payload with herr | ⟨shared, hp, _⟩
  · rw [PrepareNotifications_of_error deps rcpt herr]
    exact Or.inl rfl
  · rcases PrepareNotifications_cases deps rcpt shared hp with h0 | ⟨devices, count, h1, h2, h3, h4⟩
    · rw [h0]; exact Or.inl rfl
    · exact Or.inr ⟨shared, devices, count, hp, h1, h2, h3, h4⟩

/-- C13: a receipt with nobody in `To` and no channel yields no prepared
message, whatever the registry would answer, and sendNotifications then makes
no gateway call; more generally no call (and no other gateway event) is made
whenever the list of prepared messages is empty. -/
theorem empty_receipt_no_calls {C T M : Type} (deps : Deps C T M) (gw : Gateway)
    (rcpt : Receipt C T M) :
    (rcpt.To = [] → rcpt.Channel = [] →
      (PrepareNotifications deps rcpt).1 = [] ∧ sendNotifications deps gw rcpt = some []) ∧
    ((PrepareNotifications deps rcpt).1 = [] →
      sendNotifications deps gw rcpt = some [] ∧
      sendMessagesTrace gw (PrepareNotifications deps rcpt).1 = some ([], [])) := by
  have hgen : (PrepareNotifications deps rcpt).1 = [] →
      sendNotifications deps gw rcpt = some [] ∧
      sendMessagesTrace gw (PrepareNotifications deps rcpt).1 = some ([], []) := by
    intro h
    unfold sendNotifications
    rw [h]
    exact ⟨rfl, rfl⟩
  refine ⟨fun hto _ => ?_, hgen⟩
  have hnil : (PrepareNotifications deps rcpt).1 = [] := by
    rcases PrepareNotifications_shape deps rcpt with h | ⟨_, _, _, _, _, h, _⟩
    · exact h
    · rw [hto] at h
      simp at h
  exact ⟨hnil, (hgen hnil).1⟩

/-- Witness for C13 on the empty receipt, with a gateway that would accept
anything. -/
theorem empty_receipt_no_calls_witness :
    emptyRcpt.To = [] ∧ emptyRcpt.Channel = [] ∧
    (PrepareNotifications sampleDeps emptyRcpt).1 = [] ∧
    sendNotifications sampleDeps okGateway emptyRcpt = some [] :=
  ⟨rfl, rfl, (empty_receipt_no_calls sampleDeps okGateway emptyRcpt).1 rfl rfl⟩

/-- C17: when payloadToData fails on the receipt's payload, or the registry
lookup for the users of `To` returns an error, PrepareNotifications returns
no message, and sendNotifications makes no gateway call. -/
theorem preparation_failure_no_calls {C T M : Type} (deps : Deps C T M) (gw : Gateway)
    (rcpt : Receipt C T M)
    (h : (payloadToData deps (some rcpt.Payload)).2 ≠ none ∨
      (deps.GetAll (rcpt.To.map Prod.fst)).2.2 ≠ none) :
    (PrepareNotifications deps rcpt).1 = [] ∧
    sendNotifications deps gw rcpt = some [] ∧
    sendMessagesTrace gw (PrepareNotifications deps rcpt).1 = some ([], []) := by
  have hnil : (PrepareNotifications deps rcpt).1 = [] := by
    rcases PrepareNotifications_shape deps rcpt with h0 | ⟨shared, devices, count, hp, hg, _, _, _⟩
    · exact h0
    · rcases h with h | h
      · rw [hp] at h; exact absurd rfl h
      · rw [hg] at h; exact absurd rfl h
  unfold sendNotifications
  rw [hnil]
  exact ⟨rfl, rfl, rfl⟩

/-- Witness for C17: a payload of unknown kind, and a registry error. -/
theorem preparation_failure_no_calls_witness :
    ((PrepareNotifications sampleDeps unknownKindRcpt).1 = [] ∧
      sendNotifications sampleDeps okGateway unknownKindRcpt = some [] ∧
      sendMessagesTrace okGateway (PrepareNotifications sampleDeps unknownKindRcpt).1
        = some ([], [])) ∧
    ((PrepareNotifications brokenRegistryDeps sampleRcpt).1 = [] ∧
      sendNotifications brokenRegistryDeps okGateway sampleRcpt = some [] ∧
      sendMessagesTrace okGateway (PrepareNotifications brokenRegistryDeps sampleRcpt).1
        = some ([], [])) :=
  ⟨preparation_failure_no_calls sampleDeps okGateway unknownKindRcpt (Or.inl (by decide)),
    preparation_failure_no_calls brokenRegistryDeps okGateway sampleRcpt
      (Or.inr (by decide))⟩

/-! ## Failures that do not abort -/

theorem aborts_false_of_no_rate_limit (gw : Gateway) (messages : List MessageData)
    (hok : ∀ k b, (gw.PublishMultiple k b).2 = none ∧
      ∀ r ∈ (gw.PublishMultiple k b).1, gw.ValidateResponse r ≠ none →
        r.Details.index "error" ≠ gw.ErrorMessageRateExceeded) (j : Nat) :
    aborts gw messages j = false := by
  unfold aborts
  rw [(hok j _).1, scanResponses_false gw _ (hok j _).2]
  rfl

/-- All batches go out when nothing aborts. -/
theorem sendMessages_all_batches (gw : Gateway) (messages : List MessageData)
    (hno : ∀ j, aborts gw messages j = false) :
    sendMessages gw messages =
      some ((List.range ((messages.length + 99) / 100)).map (batchAt messages)) := by
  rcases Nat.eq_zero_or_pos messages.length with h0 | hN
  · unfold sendMessages
    rw [if_pos h0, h0]
    rfl
  · obtain ⟨calls, h1, _, h2, _, h3, _, h4⟩ := sendMessages_shape gw messages hN
    have hlen : calls.length = (messages.length + 99) / 100 := by
      rcases h4 with h4 | h4
      · omega
      · rw [hno] at h4
        exact absurd h4 (by decide)
    rw [h1, ← hlen]
    exact congrArg some h2

/-- C18: per-message failures without the rate-limit detail do not abort the
dispatch.  With no transport error and no response failing with "rate limit
exceeded", all ceil(N/100) batches are issued, in order, and the calls are
the same as with any gateway whose responses all pass validation. -/
theorem sendMessages_other_failures (gw gwOk : Gateway) (messages : List MessageData)
    (hgw : ∀ k b, (gw.PublishMultiple k b).2 = none ∧
      ∀ r ∈ (gw.PublishMultiple k b).1, gw.ValidateResponse r ≠ none →
        r.Details.index "error" ≠ gw.ErrorMessageRateExceeded)
    (hok : ∀ k b, (gwOk.PublishMultiple k b).2 = none ∧
      ∀ r ∈ (gwOk.PublishMultiple k b).1, gwOk.ValidateResponse r = none) :
    (∃ calls, sendMessages gw messages = some calls ∧
      calls.length = (messages.length + 99) / 100 ∧
      calls = (List.range calls.length).map
        (fun j => ((messages.map MessageData.Message).drop (100 * j)).take 100) ∧
      calls.flatten = messages.map MessageData.Message) ∧
    sendMessages gw messages = sendMessages gwOk messages := by
  have h1 := sendMessages_all_batches gw messages
    (aborts_false_of_no_rate_limit gw messages hgw)
  have h2 := sendMessages_all_batches gwOk messages
    (aborts_false_of_no_rate_limit gwOk messages
      (fun k b => ⟨(hok k b).1, fun r hr hv => absurd ((hok k b).2 r hr) hv⟩))
  refine ⟨⟨_, h1, by simp, ?_, ?_⟩, by rw [h1, h2]⟩
  · simp only [List.length_map, List.length_range]
    rfl
  · rw [join_batches, List.take_of_length_le (by simp only [List.length_map]; omega)]

/-- Witness for C18: 250 messages, and a gateway that reports an unregistered
device in every batch, give the same three calls as a gateway that reports
no failure. -/
theorem sendMessages_other_failures_witness :
    (∃ calls, sendMessages unregisteredGateway manyMessages = some calls ∧
      calls.length = (manyMessages.length + 99) / 100 ∧
      calls = (List.range calls.length).map
        (fun j => ((manyMessages.map MessageData.Message).drop (100 * j)).take 100) ∧
      calls.flatten = manyMessages.map MessageData.Message) ∧
    sendMessages unregisteredGateway manyMessages = sendMessages okGateway manyMessages := by
  have hresp : ∀ r ∈ [okResponse, unregisteredResponse],
      unregisteredGateway.ValidateResponse r ≠ none →
        r.Details.index "error" ≠ unregisteredGateway.ErrorMessageRateExceeded := by decide
  exact sendMessages_other_failures unregisteredGateway okGateway manyMessages
    (fun _ _ => ⟨rfl, hresp⟩)
    (fun _ _ => ⟨rfl, fun r hr => absurd hr (List.not_mem_nil r)⟩)

/-! ## The channel of a receipt -/

theorem foldl_userStep_no_devices (rcptTo : List (Nat × Recipient))
    (skipDevices : List GoString) (data : MapRef) (devices : List (Nat × List DeviceDef))
    (h : Heap) (hdev : ∀ e ∈ devices, e.2 = []) :
    (devices.foldl (userStep rcptTo skipDevices data) (h, [])).2 = [] := by
  have hs := foldl_userStep_strip rcptTo skipDevices data devices h []
  have hflat : devices.flatMap (fun e =>
      (e.2.filter (eligible skipDevices)).map (mkMessage rcptTo e.1 0)) = [] := by
    rw [List.flatMap_eq_nil_iff]
    intro e he
    rw [hdev e he]
    rfl
  rw [hflat] at hs
  simpa using hs

theorem all_empty_of_sum_zero (devices : List (Nat × List DeviceDef))
    (h : (devices.map (fun e => e.2.length)).sum = 0) : ∀ e ∈ devices, e.2 = [] := by
  intro e he
  rw [List.sum_eq_zero_iff] at h
  exact List.length_eq_zero.1 (h _ (List.mem_map.2 ⟨e, he, rfl⟩))

theorem PrepareNotifications_eval {C T M : Type} (deps : Deps C T M) (rcpt : Receipt C T M)
    (shared : StrMap) (devices : List (Nat × List DeviceDef)) (count : Int)
    (hp : payloadToData deps (some rcpt.Payload) = (some shared, none))
    (hto : rcpt.To.length > 0)
    (hg : deps.GetAll (rcpt.To.map Prod.fst) = (devices, count, none)) :
    PrepareNotifications deps rcpt =
      if count = 0 ∧ rcpt.Channel = [] then ([], [shared])
      else
        ((devices.foldl (userStep rcpt.To (collectTo rcpt.To).2 0) ([shared], [])).2,
          (devices.foldl (userStep rcpt.To (collectTo rcpt.To).2 0) ([shared], [])).1) := by
  rw [PrepareNotifications_of_ok deps rcpt shared hp, if_pos hto, collectTo_uids, hg]

theorem PrepareNotifications_eval_error {C T M : Type} (deps : Deps C T M)
    (rcpt : Receipt C T M) (shared : StrMap) (devices : List (Nat × List DeviceDef))
    (count : Int) (e : GoError)
    (hp : payloadToData deps (some rcpt.Payload) = (some shared, none))
    (hg : deps.GetAll (rcpt.To.map Prod.fst) = (devices, count, some e)) :
    PrepareNotifications deps rcpt = ([], [shared]) := by
  rw [PrepareNotifications_of_ok deps rcpt shared hp, collectTo_uids, hg]
  split_ifs <;> rfl

theorem PrepareNotifications_eval_nobody {C T M : Type} (deps : Deps C T M)
    (rcpt : Receipt C T M) (shared : StrMap)
    (hp : payloadToData deps (some rcpt.Payload) = (some shared, none))
    (hto : ¬ rcpt.To.length > 0) :
    PrepareNotifications deps rcpt = ([], [shared]) := by
  rw [PrepareNotifications_of_ok deps rcpt shared hp, if_neg hto]

/-- Clearing the channel of a receipt does not change what is prepared, when
the registry's count is the number of devices it returns. -/
theorem PrepareNotifications_clear_channel {C T M : Type} (deps : Deps C T M)
    (rcpt : Receipt C T M)
    (hcount : ∀ devices count,
      deps.GetAll (rcpt.To.map Prod.fst) = (devices, count, none) →
        count = ((devices.map (fun e => e.2.length)).sum : Nat)) :
    (PrepareNotifications deps rcpt).1 =
      (PrepareNotifications deps { rcpt with Channel := [] }).1 ∧
    (PrepareNotifications deps rcpt).1.map
        (MessageData.data (PrepareNotifications deps rcpt).2) =
      (PrepareNotifications deps { rcpt with Channel := [] }).1.map
        (MessageData.data (PrepareNotifications deps { rcpt with Channel := [] }).2) := by
  rcases payloadToData_result deps rcpt.Payload with herr | ⟨shared, hp, _⟩
  · rw [PrepareNotifications_of_error deps rcpt herr,
      PrepareNotifications_of_error deps { rcpt with Channel := [] } herr]
    exact ⟨rfl, rfl⟩
  · by_cases hto : rcpt.To.length > 0
    · rcases hg : deps.GetAll (rcpt.To.map Prod.fst) with ⟨devices, count, err⟩
      cases err with
      | some e =>
        rw [PrepareNotifications_eval_error deps rcpt shared devices count e hp hg,
          PrepareNotifications_eval_error deps { rcpt with Channel := [] } shared devices
            count e hp hg]
        exact ⟨rfl, rfl⟩
      | none =>
        rw [PrepareNotifications_eval deps rcpt shared devices count hp hto hg,
          PrepareNotifications_eval deps { rcpt with Channel := [] } shared devices count
            hp hto hg]
        by_cases hc : count = 0
        · have hsum := hcount devices count hg
          rw [hc] at hsum
          have hz : (devices.map (fun e => e.2.length)).sum = 0 := by
            have := hsum.symm
            exact_mod_cast this
          have hnil := foldl_userStep_no_devices rcpt.To (collectTo rcpt.To).2 0 devices
            [shared] (all_empty_of_sum_zero devices hz)
          rw [if_pos (show count = 0 ∧ ([] : GoString) = [] from ⟨hc, rfl⟩)]
          by_cases hch : rcpt.Channel = []
          · rw [if_pos ⟨hc, hch⟩]
            exact ⟨rfl, rfl⟩
          · rw [if_neg (fun hh => hch hh.2)]
            simp only [hnil, List.map_nil, and_self]
        · rw [if_neg (fun hh => hc hh.1),
            if_neg (show ¬ (count = 0 ∧ ([] : GoString) = []) from fun hh => hc hh.1)]
          exact ⟨rfl, rfl⟩
    · rw [PrepareNotifications_eval_nobody deps rcpt shared hp hto,
        PrepareNotifications_eval_nobody deps { rcpt with Channel := [] } shared hp hto]
      exact ⟨rfl, rfl⟩

/-- C19: the channel of a receipt is inert.  Two receipts with the same `To`
and payload, whatever their channels, yield the same messages with the same
attributes, provided the count the registry reports is the number of devices
in the lists it returns; in particular, with a reported count of zero no
message is prepared even when a channel is set. -/
theorem channel_inert {C T M : Type} (deps : Deps C T M) (rcpt1 rcpt2 : Receipt C T M)
    (hTo : rcpt1.To = rcpt2.To) (hPl : rcpt1.Payload = rcpt2.Payload)
    (hcount : ∀ devices count,
      deps.GetAll (rcpt1.To.map Prod.fst) = (devices, count, none) →
        count = ((devices.map (fun e => e.2.length)).sum : Nat)) :
    (PrepareNotifications deps rcpt1).1 = (PrepareNotifications deps rcpt2).1 ∧
    (PrepareNotifications deps rcpt1).1.map
        (MessageData.data (PrepareNotifications deps rcpt1).2) =
      (PrepareNotifications deps rcpt2).1.map
        (MessageData.data (PrepareNotifications deps rcpt2).2) ∧
    (∀ devices, deps.GetAll (rcpt1.To.map Prod.fst) = (devices, 0, none) →
      (PrepareNotifications deps rcpt1).1 = []) := by
  have h1 := PrepareNotifications_clear_channel deps rcpt1 hcount
  have h2 := PrepareNotifications_clear_channel deps rcpt2 (by rw [← hTo]; exact hcount)
  have heq : ({ rcpt1 with Channel := [] } : Receipt C T M) = { rcpt2 with Channel := [] } := by
    rw [hTo, hPl]
  rw [heq] at h1
  refine ⟨h1.1.trans h2.1.symm, h1.2.trans h2.2.symm, ?_⟩
  intro devices hg
  rw [h1.1, ← heq]
  rcases PrepareNotifications_shape deps { rcpt1 with Channel := [] } with
    h0 | ⟨_, devices2, count2, _, hg2, _, hc, _⟩
  · exact h0
  · exfalso
    have hg3 : deps.GetAll (rcpt1.To.map Prod.fst) = (devices2, count2, none) := hg2
    rw [hg] at hg3
    simp only [Prod.mk.injEq, and_true] at hg3
    exact hc ⟨hg3.2.symm, rfl⟩

/-- Witness for C19: the scenario receipt with and without a channel name. -/
theorem channel_inert_witness :
    (PrepareNotifications sampleDeps channelRcpt).1 =
      (PrepareNotifications sampleDeps sampleRcpt).1 ∧
    (PrepareNotifications sampleDeps channelRcpt).1.map
        (MessageData.data (PrepareNotifications sampleDeps channelRcpt).2) =
      (PrepareNotifications sampleDeps sampleRcpt).1.map
        (MessageData.data (PrepareNotifications sampleDeps sampleRcpt).2) ∧
    (PrepareNotifications noDeviceDeps channelRcpt).1 = [] := by
  have h1 : ∀ devices count,
      sampleDeps.GetAll (channelRcpt.To.map Prod.fst) = (devices, count, none) →
        count = ((devices.map (fun e => e.2.length)).sum : Nat) := by
    intro devices count hg
    have h2 : sampleDeps.GetAll (channelRcpt.To.map Prod.fst) =
        ([(2, [⟨goStr "ios-1", goStr "ios"⟩, ⟨goStr "ios-2", goStr "ios"⟩])], 2, none) := rfl
    rw [h2] at hg
    simp only [Prod.mk.injEq, and_true] at hg
    rw [← hg.1, ← hg.2]
    rfl
  have h3 : ∀ devices count,
      noDeviceDeps.GetAll (channelRcpt.To.map Prod.fst) = (devices, count, none) →
        count = ((devices.map (fun e => e.2.length)).sum : Nat) := by
    intro devices count hg
    have h4 : noDeviceDeps.GetAll (channelRcpt.To.map Prod.fst) = ([(2, [])], 0, none) := rfl
    rw [h4] at hg
    simp only [Prod.mk.injEq, and_true] at hg
    rw [← hg.1, ← hg.2]
    rfl
  have ha := channel_inert sampleDeps channelRcpt sampleRcpt rfl rfl h1
  have hb := channel_inert noDeviceDeps channelRcpt sampleRcpt rfl rfl h3
  exact ⟨ha.1, ha.2.1, hb.2.2 _ rfl⟩

/-! ## Badge and fixed fields -/

/-- C14: every prepared message has the fixed title, body, sound ("default")
and priority ("high"), and comes from a device of the registry list of its
user; its badge is that user's `Unread` from `To` (0 without a `To` entry)
when the device's platform is "ios" and is unset (0) otherwise.  Message by
message: the list of (user, device, badge) of the prepared messages is that
of the eligible devices, user by user in list order. -/
theorem PrepareNotifications_badge {C T M : Type} (deps : Deps C T M)
    (rcpt : Receipt C T M) :
    (∀ m ∈ (PrepareNotifications deps rcpt).1,
      m.Message.Title = goStr "Сообщения" ∧
      m.Message.Body = goStr "Пользователь отправил вам новое сообщение" ∧
      m.Message.Sound = goStr "default" ∧ m.Message.Priority = goStr "high" ∧
      ∃ devList d, (m.Uid, devList) ∈ (deps.GetAll (rcpt.To.map Prod.fst)).1 ∧ d ∈ devList ∧
        m.DeviceId = d.DeviceId ∧
        (d.Platform = goStr "ios" → m.Message.Badge = (lookupTo rcpt.To m.Uid).Unread) ∧
        (d.Platform ≠ goStr "ios" → m.Message.Badge = 0) ∧
        ((∀ r, (m.Uid, r) ∉ rcpt.To) → m.Message.Badge = 0)) ∧
    ((PrepareNotifications deps rcpt).1 = [] ∨
      (PrepareNotifications deps rcpt).1.map (fun m => (m.Uid, m.DeviceId, m.Message.Badge)) =
        (deps.GetAll (rcpt.To.map Prod.fst)).1.flatMap (fun e =>
          (e.2.filter (fun d => decide (d.DeviceId ≠ [] ∧ d.DeviceId ∉ skipSet rcpt.To))).map
            (fun d => (e.1, d.DeviceId,
              if d.Platform = goStr "ios" then (lookupTo rcpt.To e.1).Unread else 0)))) := by
  rcases PrepareNotifications_shape deps rcpt with h0 | ⟨shared, devices, count, _, hg, _, _, h1⟩
  · rw [h0]
    exact ⟨fun m hm => by simp at hm, Or.inl rfl⟩
  · rw [h1, hg]
    simp only
    constructor
    · intro m hm
      obtain ⟨e, he, d, hd, _, hmk⟩ := mem_foldl_userStep _ _ _ _ _ _ hm
      have e1 : m.Message.Title = m.strip.Message.Title := rfl
      have e2 : m.Message.Body = m.strip.Message.Body := rfl
      have e3 : m.Message.Sound = m.strip.Message.Sound := rfl
      have e4 : m.Message.Priority = m.strip.Message.Priority := rfl
      have e5 : m.Uid = m.strip.Uid := rfl
      have e6 : m.DeviceId = m.strip.DeviceId := rfl
      have e7 : m.Message.Badge = m.strip.Message.Badge := rfl
      rw [e1, e2, e3, e4, e5, e6, e7, hmk]
      refine ⟨rfl, rfl, rfl, rfl, e.2, d, he, hd, rfl, ?_, ?_, ?_⟩
      · intro hios
        simp only [mkMessage, hios, if_true]
      · intro hios
        simp only [mkMessage, hios, if_false]
      · intro habs
        have hz : (lookupTo rcpt.To e.1).Unread = 0 := by
          rw [lookupTo_of_not_mem rcpt.To e.1 habs]
        simp only [mkMessage]
        split_ifs
        · exact hz
        · rfl
    · right
      have hs := foldl_userStep_strip rcpt.To (collectTo rcpt.To).2 0 devices [shared] []
      simp only [List.map_nil, List.nil_append] at hs
      have hm : (devices.foldl (userStep rcpt.To (collectTo rcpt.To).2 0) ([shared], [])).2.map
            (fun m => (m.Uid, m.DeviceId, m.Message.Badge)) =
          ((devices.foldl (userStep rcpt.To (collectTo rcpt.To).2 0) ([shared], [])).2.map
            MessageData.strip).map (fun m => (m.Uid, m.DeviceId, m.Message.Badge)) := by
        rw [List.map_map]
        rfl
      rw [hm, hs, List.map_flatMap]
      have hf : (fun d => eligible (collectTo rcpt.To).2 d) =
          (fun d : DeviceDef => decide (d.DeviceId ≠ [] ∧ d.DeviceId ∉ skipSet rcpt.To)) := by
        funext d
        simp only [eligible, mem_collectTo_skip, and_comm]
      congr 1
      funext e
      rw [List.map_map]
      show (List.filter (fun d => eligible (collectTo rcpt.To).2 d) e.2).map _ = _
      rw [hf]
      rfl

/-- Witness for C14: user 2 has 3 unread messages and two eligible devices,
user 5 has an iOS device and no `To` entry. -/
theorem PrepareNotifications_badge_witness :
    (PrepareNotifications badgeDeps sampleRcpt).1.map
        (fun m => (m.Uid, m.DeviceId, m.Message.Badge)) =
      [(2, goStr "ios-2", 3), (2, goStr "and-2", 0), (5, goStr "ios-5", 0)] := by
  rcases (PrepareNotifications_badge badgeDeps sampleRcpt).2 with h | h
  · exact absurd h (by decide)
  · rw [h]
    decide

/-! ## Handler lifecycle -/

/-- C15: readiness on the explicit handler state.  `IsReady` holds exactly
when the input channel is allocated.  `Init` with an unparsable configuration
returns an error and leaves the state unchanged.  `Init` with `enabled`
false returns success and leaves the state unchanged, so that the handler,
uninitialized before, still has no channel allocated and is not ready.
`Init` with `enabled` true returns success and makes the handler ready. -/
theorem handler_readiness (Unmarshal : GoString → configType × Option GoError)
    (h : Handler) (jsonconf : GoString) :
    (IsReady h = true ↔ h.input ≠ none) ∧
    ((Unmarshal jsonconf).2 ≠ none →
      (Init Unmarshal h jsonconf).2 ≠ none ∧ (Init Unmarshal h jsonconf).1 = h) ∧
    ((Unmarshal jsonconf).2 = none → (Unmarshal jsonconf).1.Enabled = false →
      (Init Unmarshal h jsonconf).2 = none ∧ (Init Unmarshal h jsonconf).1 = h ∧
      (Init Unmarshal handler jsonconf).1 = handler ∧
      (Init Unmarshal handler jsonconf).1.input = none ∧
      (Init Unmarshal handler jsonconf).1.channel = none ∧
      (Init Unmarshal handler jsonconf).1.stop = none ∧
      IsReady (Init Unmarshal handler jsonconf).1 = false) ∧
    ((Unmarshal jsonconf).2 = none → (Unmarshal jsonconf).1.Enabled = true →
      (Init Unmarshal h jsonconf).2 = none ∧
      (Init Unmarshal h jsonconf).1.input = some ⟨bufferSize⟩ ∧
      IsReady (Init Unmarshal h jsonconf).1 = true) := by
  refine ⟨?_, ?_, ?_, ?_⟩
  · unfold IsReady
    cases h.input <;> simp
  · intro he
    unfold Init
    cases hu : (Unmarshal jsonconf).2 with
    | none => exact absurd hu he
    | some e => simp
  · intro he hd
    have hi : ∀ h0 : Handler, Init Unmarshal h0 jsonconf = (h0, none) := by
      intro h0
      unfold Init
      rw [he]
      simp [hd]
    rw [hi h, hi handler]
    exact ⟨rfl, rfl, rfl, rfl, rfl, rfl, rfl⟩
  · intro he hen
    unfold Init
    rw [he]
    simp [hen, IsReady]

/-- Witness for C15 with a sample parser: the uninitialized handler stays
uninitialized on a disabled configuration and on an unparsable one, and
becomes ready on an enabled one. -/
theorem handler_readiness_witness :
    IsReady handler = false ∧
    (Init sampleUnmarshal handler disabledConf) = (handler, none) ∧
    (Init sampleUnmarshal handler brokenConf).1 = handler ∧
    (Init sampleUnmarshal handler brokenConf).2 ≠ none ∧
    IsReady (Init sampleUnmarshal handler enabledConf).1 = true :=
  ⟨by decide,
    Prod.ext ((handler_readiness sampleUnmarshal handler
        disabledConf).2.2.1 (by decide) (by decide)).2.1
      ((handler_readiness sampleUnmarshal handler
        disabledConf).2.2.1 (by decide) (by decide)).1,
    ((handler_readiness sampleUnmarshal handler brokenConf).2.1 (by decide)).2,
    ((handler_readiness sampleUnmarshal handler brokenConf).2.1 (by decide)).1,
    ((handler_readiness sampleUnmarshal handler
      enabledConf).2.2.2 (by decide) (by decide)).2.2⟩

/-! ## The byte-length pre-check -/

/-- C16: the byte-length pre-check is only an optimisation: on every attribute
map, and so on every text, the truncation as coded gives the result of the
naive truncation that always counts the runes. -/
theorem trim_refines_naive (data : StrMap) (s : GoString) :
    trimData data = trimDataNaive data ∧ trimContent s = trimContentNaive s := by
  constructor
  · unfold trimData trimDataNaive
    dsimp only
    by_cases hb : len (data.index "content") > maxMessageLength
    · rw [if_pos hb]
    · rw [if_neg hb]
      have := toRunes_length_le (data.index "content")
      rw [if_neg (by omega)]
  · unfold trimContent trimContentNaive
    dsimp only
    by_cases hb : len s > maxMessageLength
    · rw [if_pos hb]
    · rw [if_neg hb]
      have := toRunes_length_le s
      rw [if_neg (by omega)]

/-! ## Attribute values -/

theorem natDigits_append (fuel n : Nat) (acc : GoString) :
    natDigits fuel n acc = natDigits fuel n [] ++ acc := by
  induction fuel generalizing n acc with
  | zero => simp [natDigits]
  | succ f ih =>
    unfold natDigits
    split_ifs
    · simp
    · rw [ih (n / 10) ((48 + n % 10) :: acc), ih (n / 10) [48 + n % 10]]
      simp

theorem parseDigits_append (a : Nat) (xs ys : GoString) :
    parseDigits a (xs ++ ys) = (parseDigits a xs).bind (fun a2 => parseDigits a2 ys) := by
  induction xs generalizing a with
  | nil => simp [parseDigits]
  | cons c rest ih =>
    simp only [List.cons_append, parseDigits]
    split_ifs
    · exact ih _
    · rfl

/-- Reading back the digits `strconv.Itoa` writes gives the number. -/
theorem parseDigits_natDigits (fuel n : Nat) (h : n < fuel) :
    parseDigits 0 (natDigits fuel n []) = some n := by
  induction fuel generalizing n with
  | zero => omega
  | succ f ih =>
    unfold natDigits
    split_ifs with h10
    · simp only [parseDigits]
      rw [if_pos (by omega)]
      simp
    · rw [natDigits_append, parseDigits_append, ih (n / 10) (by omega)]
      simp only [Option.some_bind, parseDigits]
      rw [if_pos (by omega)]
      congr 1
      omega

theorem natDigits_ne_nil (n : Nat) : natDigits (n + 1) n [] ≠ [] := by
  intro h
  unfold natDigits at h
  split_ifs at h
  rw [natDigits_append] at h
  simp at h

theorem parseDecimal_natDigits (n : Nat) :
    parseDecimal (natDigits (n + 1) n []) = some (n : Int) := by
  have hp := parseDigits_natDigits (n + 1) n (by omega)
  cases hd : natDigits (n + 1) n [] with
  | nil => exact absurd hd (natDigits_ne_nil n)
  | cons c rest =>
    rw [hd] at hp
    have hc : ¬ c = 0x2D := by
      intro hc
      subst hc
      simp [parseDigits] at hp
    simp only [parseDecimal]
    rw [if_neg hc, hp]
    rfl

/-- Parsing the text `strconv.Itoa` writes gives the number back, also for
zero and for negative numbers. -/
theorem parseDecimal_Itoa (i : Int) : parseDecimal (Itoa i) = some i := by
  unfold Itoa
  split_ifs with hneg
  · have hp := parseDigits_natDigits (i.natAbs + 1) i.natAbs (by omega)
    simp only [parseDecimal, if_true]
    rw [hp]
    cases hd : natDigits (i.natAbs + 1) i.natAbs [] with
    | nil => exact absurd hd (natDigits_ne_nil _)
    | cons c rest =>
      simp only [Option.map_some', Option.some.injEq, Int.ofNat_eq_coe]
      omega
  · rw [parseDecimal_natDigits]
    congr 1
    omega

theorem Itoa_injective (i j : Int) (h : Itoa i = Itoa j) : i = j := by
  have := parseDecimal_Itoa i
  rw [h, parseDecimal_Itoa j] at this
  exact (Option.some.inj this).symm

theorem payloadToData_get_common {C T M : Type} (deps : Deps C T M) (pl : Payload C T M)
    (data : StrMap) (h : payloadToData deps (some pl) = (some data, none)) (k : String)
    (hk : k = "what" ∨ k = "topic" ∨ k = "xfrom") :
    data.get k = (commonData deps pl).get k := by
  have hne : k ≠ "content" ∧ k ≠ "mime" ∧ k ≠ "seq" ∧ k ≠ "modeWant" ∧ k ≠ "modeGiven" := by
    rcases hk with rfl | rfl | rfl <;> decide
  rw [payloadToData_some_eq] at h
  split_ifs at h with h1 h2
  · cases ht : (deps.ToPlainText pl.Content).2 with
    | some err => rw [ht] at h; simp at h
    | none =>
      rw [ht] at h
      simp only [Prod.mk.injEq, Option.some.injEq, and_true] at h
      rw [← h, get_trimData _ _ hne.1, StrMap.get_set, if_neg (fun hh => hne.1 hh.symm),
        StrMap.get_set, if_neg (fun hh => hne.2.1 hh.symm),
        StrMap.get_set, if_neg (fun hh => hne.2.2.1 hh.symm)]
  · simp only [Prod.mk.injEq, Option.some.injEq, and_true] at h
    rw [← h, StrMap.get_set, if_neg (fun hh => hne.2.2.2.2 hh.symm),
      StrMap.get_set, if_neg (fun hh => hne.2.2.2.1 hh.symm)]
  · simp at h

theorem payloadToData_get_message {C T M : Type} (deps : Deps C T M) (pl : Payload C T M)
    (data : StrMap) (h : payloadToData deps (some pl) = (some data, none))
    (hw : pl.What = deps.ActMsg) :
    data.get "mime" = some pl.ContentType ∧ data.get "seq" = some (Itoa pl.SeqId) := by
  rw [payloadToData_some_eq, if_pos hw] at h
  cases ht : (deps.ToPlainText pl.Content).2 with
  | some err => rw [ht] at h; simp at h
  | none =>
    rw [ht] at h
    simp only [Prod.mk.injEq, Option.some.injEq, and_true] at h
    rw [← h, get_trimData _ _ (by decide), get_trimData _ _ (by decide)]
    constructor
    · rw [StrMap.get_set, if_neg (by decide), StrMap.get_set, if_pos rfl]
    · rw [StrMap.get_set, if_neg (by decide), StrMap.get_set, if_neg (by decide),
        StrMap.get_set, if_pos rfl]

/-- C20: on success the attributes are the payload's fields: `what`, `topic`
and `xfrom` are `What`, `Topic` and `From`; for a message payload `mime` is
`ContentType` and `seq` is the decimal rendering of `SeqId`, which parses back
to `SeqId` (also zero and negative); and a payload that differs in `What`,
`Topic` or `From`, or for a message in `ContentType` or `SeqId`, yields a
different attribute map. -/
theorem payloadToData_values {C T M : Type} (deps : Deps C T M) (pl : Payload C T M)
    (data : StrMap) (h : payloadToData deps (some pl) = (some data, none)) :
    data.get "what" = some pl.What ∧ data.get "topic" = some pl.Topic ∧
    data.get "xfrom" = some pl.From ∧
    (pl.What = deps.ActMsg →
      data.get "mime" = some pl.ContentType ∧ data.get "seq" = some (Itoa pl.SeqId) ∧
      parseDecimal (data.index "seq") = some pl.SeqId) ∧
    (∀ (pl2 : Payload C T M) (data2 : StrMap),
      payloadToData deps (some pl2) = (some data2, none) →
      (pl.What ≠ pl2.What ∨ pl.Topic ≠ pl2.Topic ∨ pl.From ≠ pl2.From ∨
        (pl.What = deps.ActMsg ∧
          (pl.ContentType ≠ pl2.ContentType ∨ pl.SeqId ≠ pl2.SeqId))) →
      data ≠ data2) := by
  have hcommon : ∀ (p : Payload C T M) (d : StrMap),
      payloadToData deps (some p) = (some d, none) →
      d.get "what" = some p.What ∧ d.get "topic" = some p.Topic ∧
        d.get "xfrom" = some p.From := by
    intro p d hd
    refine ⟨?_, ?_, ?_⟩
    · rw [payloadToData_get_common deps p d hd "what" (Or.inl rfl), get_commonData]
      simp
    · rw [payloadToData_get_common deps p d hd "topic" (Or.inr (Or.inl rfl)), get_commonData]
      simp
    · rw [payloadToData_get_common deps p d hd "xfrom" (Or.inr (Or.inr rfl)), get_commonData]
      simp
  obtain ⟨hw, ht, hf⟩ := hcommon pl data h
  refine ⟨hw, ht, hf, ?_, ?_⟩
  · intro hmsg
    obtain ⟨hm, hs⟩ := payloadToData_get_message deps pl data h hmsg
    refine ⟨hm, hs, ?_⟩
    unfold StrMap.index
    rw [hs]
    exact parseDecimal_Itoa pl.SeqId
  · intro pl2 data2 h2 hdiff heq
    subst heq
    obtain ⟨hw2, ht2, hf2⟩ := hcommon pl2 data h2
    rw [hw] at hw2
    rw [ht] at ht2
    rw [hf] at hf2
    have ew : pl.What = pl2.What := Option.some.inj hw2
    rcases hdiff with hd | hd | hd | ⟨hmsg, hd⟩
    · exact hd ew
    · exact hd (Option.some.inj ht2)
    · exact hd (Option.some.inj hf2)
    · obtain ⟨hm, hs⟩ := payloadToData_get_message deps pl data h hmsg
      obtain ⟨hm2, hs2⟩ := payloadToData_get_message deps pl2 data h2 (by rw [← ew]; exact hmsg)
      rw [hm] at hm2
      rw [hs] at hs2
      rcases hd with hd | hd
      · exact hd (Option.some.inj hm2)
      · exact hd (Itoa_injective _ _ (Option.some.inj hs2))

/-- Witness for C20: a message payload with sequence number -120; the sample
payload, which differs from it in `SeqId` only, has other attributes. -/
theorem payloadToData_values_witness :
    ∃ data, payloadToData sampleDeps (some negSeqMsg) = (some data, none) ∧
      data.get "seq" = some (goStr "-120") ∧
      parseDecimal (data.index "seq") = some (-120) ∧
      ∀ data2, payloadToData sampleDeps (some sampleMsg) = (some data2, none) →
        data ≠ data2 := by
  have hd : payloadToData sampleDeps (some negSeqMsg) =
      (some ((payloadToData sampleDeps (some negSeqMsg)).1.getD []), none) := by decide
  obtain ⟨_, _, _, hmsg, hdiff⟩ := payloadToData_values sampleDeps negSeqMsg _ hd
  obtain ⟨_, hs, hp⟩ := hmsg rfl
  refine ⟨_, hd, ?_, hp, fun data2 h2 => hdiff sampleMsg data2 h2 ?_⟩
  · rw [hs]; decide
  · exact Or.inr (Or.inr (Or.inr ⟨rfl, Or.inr (by decide)⟩))

end Expo
